import Mathlib

/-! # Session manager of the UPF control plane

A shallow embedding of `src/SessionManager.cpp`: the session record, the
sessions map it is kept in, the rule CRUD operations of `SessionManager`,
and the properties of those operations.

Conventions of the embedding.

* A C array is a `List`; a pointer into it is the index of the element it
  points at, so `session.pdrs + session.pdrs_counter` is the index
  `0 + session.pdrs_counter`.
* A `void` member function that may throw `std::runtime_error` returns
  `Except runtime_error Unit` together with the sessions map it leaves
  behind.
* `std::shared_ptr<…Rules>` results are `Option`s, the empty pointer being
  `none`.
* Counters are natural numbers.  The only increment is guarded by
  `counter < SESSION_…_MAX_SIZE` and the only decrement by `counter ≠ 0`, so
  no counter wraps.
-/

namespace UPF

/-! ## Data model (`pfcp/pfcp_session.h`, not part of the sources at hand) -/

/-- Identifier of a forwarding action rule, read as `far.far_id.far_id`. -/
structure far_id_t_ where
  far_id : Nat
  deriving DecidableEq, Repr

/-- Identifier of a packet detection rule, read as `pdr.pdr_id.rule_id`. -/
structure pdr_id_t_ where
  rule_id : Nat
  deriving DecidableEq, Repr

/-- Modelled from the spec: the declaration of `pfcp_far_t_` is missing; a FAR
record is its identifier and an opaque forwarding-action payload. -/
structure pfcp_far_t_ where
  far_id : far_id_t_
  payload : Nat
  deriving DecidableEq, Repr

/-- Modelled from the spec: the declaration of `pfcp_pdr_t_` is missing; a PDR
record is its identifier and an opaque matching payload. -/
structure pfcp_pdr_t_ where
  pdr_id : pdr_id_t_
  payload : Nat
  deriving DecidableEq, Repr

/-- Modelled from the spec: the declaration of `pfcp_session_t_` is missing;
the fields are the ones `SessionManager.cpp` reads and writes.  `pdrs` and
`fars` are the inline arrays, of `SESSION_PDRS_MAX_SIZE` and
`SESSION_FARS_MAX_SIZE` elements. -/
structure pfcp_session_t_ where
  seid : Nat
  pdrs : List pfcp_pdr_t_
  pdrs_counter : Nat
  fars : List pfcp_far_t_
  fars_counter : Nat
  deriving DecidableEq, Repr

/-! ## Rule value objects (`interfaces/*.h`, not part of the sources at hand) -/

/-- Modelled from the spec: `interfaces/ForwardingActionRules.h` is missing; a
rule value object converts to and from the fixed-layout record, so it is
represented by the record it converts to. -/
structure ForwardingActionRules where
  data : pfcp_far_t_
  deriving DecidableEq, Repr

/-- Modelled from the spec: `interfaces/PacketDetectionRules.h` is missing; as
`ForwardingActionRules`. -/
structure PacketDetectionRules where
  data : pfcp_pdr_t_
  deriving DecidableEq, Repr

/-- Modelled from the spec: `toRecord` of a FAR value object. -/
def ForwardingActionRules.getData (pFar : ForwardingActionRules) : pfcp_far_t_ :=
  pFar.data

/-- Modelled from the spec: the identity field of a FAR value object. -/
def ForwardingActionRules.getFARId (pFar : ForwardingActionRules) : far_id_t_ :=
  pFar.data.far_id

/-- Modelled from the spec: `toRecord` of a PDR value object. -/
def PacketDetectionRules.getData (pPdr : PacketDetectionRules) : pfcp_pdr_t_ :=
  pPdr.data

/-- Modelled from the spec: the identity field of a PDR value object. -/
def PacketDetectionRules.getPdrId (pPdr : PacketDetectionRules) : pdr_id_t_ :=
  pPdr.data.pdr_id

namespace RulesUtilities

/-- Modelled from the spec: `RulesUtilities::createFAR` is missing; it is
`fromRecord`, the value object materialised from a raw entry. -/
def createFAR (pFar : pfcp_far_t_) : ForwardingActionRules := ⟨pFar⟩

/-- Modelled from the spec: `RulesUtilities::createPDR` is missing; it is
`fromRecord`. -/
def createPDR (pPdr : pfcp_pdr_t_) : PacketDetectionRules := ⟨pPdr⟩

/-- Modelled from the spec: `RulesUtilities::copyFAR` is missing; it is
`copyFieldsInto`, which keeps the identity of the existing raw entry and
overwrites its payload only. -/
def copyFAR (pFarDestination : pfcp_far_t_) (pFarSource : ForwardingActionRules) :
    pfcp_far_t_ :=
  { pFarDestination with payload := pFarSource.getData.payload }

/-- Modelled from the spec: `RulesUtilities::copyPDR` is missing; as
`copyFAR`. -/
def copyPDR (pPdrDestination : pfcp_pdr_t_) (pPdrSource : PacketDetectionRules) :
    pfcp_pdr_t_ :=
  { pPdrDestination with payload := pPdrSource.getData.payload }

end RulesUtilities

/-! ## The sessions map (`wrappers/BPFMap.hpp`, not part of the sources at hand) -/

/-- Modelled from the spec: the Session Store, a key-value map from session
identifiers to one session record each, kept in a hash map of the kernel with
room for `max_entries` keys.  `entries` is the record held under each key and
`size` the number of keys present, which the map counts to tell whether it has
room for a new key. -/
structure BPFMap where
  entries : Nat → Option pfcp_session_t_
  size : Nat
  max_entries : Nat

/-- The record the map holds under a key, written `m key`. -/
instance : CoeFun BPFMap (fun _ => Nat → Option pfcp_session_t_) := ⟨BPFMap.entries⟩

/-- Flags of `update`, as in `linux/bpf.h`. -/
inductive UpdateFlag where
  | BPF_ANY
  | BPF_NOEXIST
  | BPF_EXIST
  deriving DecidableEq, Repr

namespace BPFMap

/-- The map without any session, with room for ten: `max_entries = 10` is the
value the map definition among the sources, `bpf/next_prog_rule_map.h`, gives
its map. -/
def empty : BPFMap := { entries := fun _ => none, size := 0, max_entries := 10 }

/-- The map `m` with the value under `key` replaced by `value`; the number of
keys is not touched. -/
def put (m : BPFMap) (key : Nat) (value : pfcp_session_t_) : BPFMap :=
  { m with entries := fun k => if k = key then some value else m k }

/-- The map `m` with the new key `key` bound to `value`. -/
def insert (m : BPFMap) (key : Nat) (value : pfcp_session_t_) : BPFMap :=
  { m.put key value with size := m.size + 1 }

/-- The map `m` without `key`. -/
def erase (m : BPFMap) (key : Nat) : BPFMap :=
  { m with entries := fun k => if k = key then none else m k, size := m.size - 1 }

/-- Modelled from the spec: `BPFMap::lookup(key, &value)` is `read`.  The
record found is copied into the caller's `value`; when the key is absent the
call fails and the caller's `value` is left as it was. -/
def lookup (m : BPFMap) (key : Nat) (value : pfcp_session_t_) : Int × pfcp_session_t_ :=
  match m key with
  | some v => (0, v)
  | none => (-1, value)

/-- Modelled from the spec: `BPFMap::update(key, value, flags)`.  With
`BPF_NOEXIST` it is `create` (fails when the key is present), with `BPF_EXIST`
it is `replace` (fails when the key is absent), with `BPF_ANY` it writes in
both cases.  A write under a key that is absent needs room: it fails when the
map already holds `max_entries` keys.  The result is `0` on success. -/
def update (m : BPFMap) (key : Nat) (value : pfcp_session_t_) (flags : UpdateFlag) :
    Int × BPFMap :=
  match flags, m key with
  | .BPF_NOEXIST, some _ => (-1, m)
  | .BPF_EXIST, none => (-1, m)
  | _, some _ => (0, m.put key value)
  | _, none => if m.size < m.max_entries then (0, m.insert key value) else (-1, m)

/-- Modelled from the spec: `BPFMap::remove(key)` is `delete`; it fails when
the key is absent. -/
def remove (m : BPFMap) (key : Nat) : Int × BPFMap :=
  match m key with
  | some _ => (0, m.erase key)
  | none => (-1, m)

/-- Every record of the map has both counters within the capacities. -/
def counters_bounded (SESSION_PDRS_MAX_SIZE SESSION_FARS_MAX_SIZE : Nat) (m : BPFMap) : Prop :=
  ∀ k r, m k = some r →
    r.pdrs_counter ≤ SESSION_PDRS_MAX_SIZE ∧ r.fars_counter ≤ SESSION_FARS_MAX_SIZE

/-- Every key of the map holds a record whose `seid` field is that key. -/
def keys_agree (m : BPFMap) : Prop :=
  ∀ k r, m k = some r → r.seid = k

/-- The map `m'` holds under every key other than `key` what `m` holds. -/
def same_elsewhere (m m' : BPFMap) (key : Nat) : Prop :=
  ∀ k, k ≠ key → m' k = m k

/-- The maps `m` and `m'` have the same keys. -/
def same_keys (m m' : BPFMap) : Prop :=
  ∀ k, (m' k).isSome = (m k).isSome

end BPFMap

/-- The `std::runtime_error`s thrown by `SessionManager`, one per message. -/
inductive runtime_error where
  /-- Message "Cannot create session". -/
  | cannot_create_session
  /-- Message "Cannot remove session". -/
  | cannot_remove_session
  /-- Message "The FAR cannot be added in the session". -/
  | far_cannot_be_added
  /-- Message "The PDR cannot be added in the session". -/
  | pdr_cannot_be_added
  /-- Message "There is not any element in FARs array. The FAR cannot be updated in
  the session". -/
  | no_far_to_update
  /-- Message "There is not any element in PDRs array. The PDR cannot be updated in
  the session". -/
  | no_pdr_to_update
  /-- Message "There is not any element in FARs array. The FAR cannot be deleted in
  the session". -/
  | no_far_to_delete
  /-- Message "There is not any element in PDRs array. The PDR cannot be deleted in
  the session". -/
  | no_pdr_to_delete
  /-- Message "FAR not found". -/
  | far_not_found
  /-- Message "PDR not found". -/
  | pdr_not_found
  deriving DecidableEq, Repr

/-! ## The algorithms of `<algorithm>` the session manager calls

`std::find_if`, `std::remove_if` and `std::move` belong to the C++ standard
library; they are embedded from the implementation the standard gives for
them, on an array of trivially copyable elements, where moving an element is
copying it.  Each loop recurses on the exact distance between its two
iterators. -/

namespace std

variable {α : Type}

/-- The loop of `std::find_if`: `for (; first != last; ++first) if (p(*first))
return first; return last;`, with `n` the distance from `first` to `last`.
Under the bound `last ≤ a.length` every read is inside the array; a read
outside of it, which C++ leaves undefined, ends the scan at `last`. -/
def find_if_loop (a : List α) (p : α → Bool) : Nat → Nat → Nat
  | 0, first => first
  | n + 1, first =>
    match a[first]? with
    | some x => if p x then first else find_if_loop a p n (first + 1)
    | none => first + (n + 1)

/-- The algorithm `std::find_if(a + first, a + last, p)`: the index of the
first element of `a[first, last)` that satisfies `p`, or `last`. -/
def find_if (a : List α) (first last : Nat) (p : α → Bool) : Nat :=
  find_if_loop a p (last - first) first

/-- The loop of `std::remove_if`: `for (i = first; ++i != last;) if (!p(*i))
*first++ = std::move(*i);`, entered here with `i` already advanced and `n`
the distance from `i` to `last`.  The result is the array and the final
`first`; a read outside of the array ends the loop. -/
def remove_if_loop (p : α → Bool) : Nat → Nat → Nat → List α → List α × Nat
  | 0, _, first, a => (a, first)
  | n + 1, i, first, a =>
    match a[i]? with
    | some x =>
      if !p x then remove_if_loop p n (i + 1) (first + 1) (a.set first x)
      else remove_if_loop p n (i + 1) first a
    | none => (a, first)

/-- The algorithm `std::remove_if(a + first, a + last, p)`: `first =
std::find_if(first, last, p); if (first != last) for (…) …; return first;`.
The result is the array after the in-place shifts and the new logical end. -/
def remove_if (a : List α) (first last : Nat) (p : α → Bool) : List α × Nat :=
  let first := find_if a first last p
  if first ≠ last then
    remove_if_loop p (last - (first + 1)) (first + 1) first a
  else
    (a, first)

/-- The loop of `std::move(first, last, d_first)`: `for (; first != last;
++d_first, ++first) *d_first = std::move(*first);`, with `n` the distance from
`first` to `last`; a read outside of the array ends the loop. -/
def move_loop : Nat → Nat → Nat → List α → List α
  | 0, _, _, a => a
  | n + 1, first, d_first, a =>
    match a[first]? with
    | some x => move_loop n (first + 1) (d_first + 1) (a.set d_first x)
    | none => a

/-- The algorithm `std::move(a + first, a + last, a + d_first)` on a range of
the same array. -/
def move (a : List α) (first last d_first : Nat) : List α :=
  move_loop (last - first) first d_first a

end std

deriving instance DecidableEq for Except

/-! ## `SessionManager` -/

namespace SessionManager

/-- The method `SessionManager::createSession`. -/
def createSession (mpSessionsMap : BPFMap) (pSession : pfcp_session_t_) :
    Except runtime_error Unit × BPFMap :=
  let r := mpSessionsMap.update pSession.seid pSession .BPF_NOEXIST
  if r.1 ≠ 0 then
    (.error .cannot_create_session, r.2)
  else
    (.ok (), r.2)

/-- The method `SessionManager::removeSession`. -/
def removeSession (mpSessionsMap : BPFMap) (seid : Nat) :
    Except runtime_error Unit × BPFMap :=
  let r := mpSessionsMap.remove seid
  if r.1 ≠ 0 then
    (.error .cannot_remove_session, r.2)
  else
    (.ok (), r.2)

/-- The method `SessionManager::addFAR`.  The argument `session` is the content
of the local `session` before the lookup writes into it, and
`SESSION_FARS_MAX_SIZE`, a constant of `pfcp_session.h`, is a parameter.  The
results of `lookup` and of the final `update` are not looked at, as in the
source. -/
def addFAR (SESSION_FARS_MAX_SIZE : Nat) (mpSessionsMap : BPFMap)
    (session : pfcp_session_t_) (seid : Nat) (pFar : ForwardingActionRules) :
    Except runtime_error Unit × BPFMap :=
  let session := (mpSessionsMap.lookup seid session).2
  if session.fars_counter ≥ SESSION_FARS_MAX_SIZE then
    (.error .far_cannot_be_added, mpSessionsMap)
  else
    let index := session.fars_counter
    let session := { session with fars_counter := session.fars_counter + 1 }
    let session := { session with fars := session.fars.set index pFar.getData }
    (.ok (), (mpSessionsMap.update seid session .BPF_EXIST).2)

/-- The method `SessionManager::addPDR`, with the local `session` and the
constant `SESSION_PDRS_MAX_SIZE` as arguments, as for `addFAR`. -/
def addPDR (SESSION_PDRS_MAX_SIZE : Nat) (mpSessionsMap : BPFMap)
    (session : pfcp_session_t_) (seid : Nat) (pPdr : PacketDetectionRules) :
    Except runtime_error Unit × BPFMap :=
  let session := (mpSessionsMap.lookup seid session).2
  if session.pdrs_counter ≥ SESSION_PDRS_MAX_SIZE then
    (.error .pdr_cannot_be_added, mpSessionsMap)
  else
    let index := session.pdrs_counter
    let session := { session with pdrs_counter := session.pdrs_counter + 1 }
    let session := { session with pdrs := session.pdrs.set index pPdr.getData }
    (.ok (), (mpSessionsMap.update seid session .BPF_EXIST).2)

/-- The method `SessionManager::lookupPDR`; the empty pointer is `none`. -/
def lookupPDR (mpSessionsMap : BPFMap) (session : pfcp_session_t_) (seid : Nat)
    (pdrId : pdr_id_t_) : Option PacketDetectionRules × BPFMap :=
  let session := (mpSessionsMap.lookup seid session).2
  if session.pdrs_counter = 0 then
    (none, mpSessionsMap)
  else
    let pPdrFound := std.find_if session.pdrs 0 (0 + session.pdrs_counter)
      (fun pdr => pdr.pdr_id.rule_id == pdrId.rule_id)
    if pPdrFound = 0 + session.pdrs_counter then
      (none, mpSessionsMap)
    else
      (session.pdrs[pPdrFound]?.map RulesUtilities.createPDR, mpSessionsMap)

/-- The method `SessionManager::lookupFAR`; the empty pointer is `none`. -/
def lookupFAR (mpSessionsMap : BPFMap) (session : pfcp_session_t_) (seid : Nat)
    (farId : far_id_t_) : Option ForwardingActionRules × BPFMap :=
  let session := (mpSessionsMap.lookup seid session).2
  if session.fars_counter = 0 then
    (none, mpSessionsMap)
  else
    let pFarFound := std.find_if session.fars 0 (0 + session.fars_counter)
      (fun far => far.far_id.far_id == farId.far_id)
    if pFarFound = 0 + session.fars_counter then
      (none, mpSessionsMap)
    else
      (session.fars[pFarFound]?.map RulesUtilities.createFAR, mpSessionsMap)

/-- The method `SessionManager::updateFAR`. -/
def updateFAR (mpSessionsMap : BPFMap) (session : pfcp_session_t_) (seid : Nat)
    (pFar : ForwardingActionRules) : Except runtime_error Unit × BPFMap :=
  let session := (mpSessionsMap.lookup seid session).2
  if session.fars_counter = 0 then
    (.error .no_far_to_update, mpSessionsMap)
  else
    let pFarFound := std.find_if session.fars 0 (0 + session.fars_counter)
      (fun far => far.far_id.far_id == pFar.getFARId.far_id)
    if pFarFound = 0 + session.fars_counter then
      (.error .far_not_found, mpSessionsMap)
    else
      let session := { session with
        fars := match session.fars[pFarFound]? with
          | some far => session.fars.set pFarFound (RulesUtilities.copyFAR far pFar)
          | none => session.fars }
      (.ok (), (mpSessionsMap.update seid session .BPF_EXIST).2)

/-- The method `SessionManager::updatePDR`. -/
def updatePDR (mpSessionsMap : BPFMap) (session : pfcp_session_t_) (seid : Nat)
    (pPdr : PacketDetectionRules) : Except runtime_error Unit × BPFMap :=
  let session := (mpSessionsMap.lookup seid session).2
  if session.pdrs_counter = 0 then
    (.error .no_pdr_to_update, mpSessionsMap)
  else
    let pPdrFound := std.find_if session.pdrs 0 (0 + session.pdrs_counter)
      (fun pdr => pdr.pdr_id.rule_id == pPdr.getPdrId.rule_id)
    if pPdrFound = 0 + session.pdrs_counter then
      (.error .pdr_not_found, mpSessionsMap)
    else
      let session := { session with
        pdrs := match session.pdrs[pPdrFound]? with
          | some pdr => session.pdrs.set pPdrFound (RulesUtilities.copyPDR pdr pPdr)
          | none => session.pdrs }
      (.ok (), (mpSessionsMap.update seid session .BPF_EXIST).2)

/-- The method `SessionManager::removeFAR`.  The write-back is keyed by
`session.seid`, and a FAR that is not found is reported with the message
"PDR not found", both as in the source. -/
def removeFAR (mpSessionsMap : BPFMap) (session : pfcp_session_t_) (seid : Nat)
    (pFar : ForwardingActionRules) : Except runtime_error Unit × BPFMap :=
  let session := (mpSessionsMap.lookup seid session).2
  if session.fars_counter = 0 then
    (.error .no_far_to_delete, mpSessionsMap)
  else
    let r := std.remove_if session.fars 0 (0 + session.fars_counter)
      (fun far => far.far_id.far_id == pFar.getFARId.far_id)
    let session := { session with fars := r.1 }
    let pFarEnd := r.2
    if 0 + session.fars_counter = pFarEnd then
      (.error .pdr_not_found, mpSessionsMap)
    else
      let session := { session with fars := std.move session.fars 0 pFarEnd 0 }
      let session := { session with fars_counter := session.fars_counter - 1 }
      (.ok (), (mpSessionsMap.update session.seid session .BPF_EXIST).2)

/-- The method `SessionManager::removePDR`.  The write-back is keyed by
`session.seid`, as in the source. -/
def removePDR (mpSessionsMap : BPFMap) (session : pfcp_session_t_) (seid : Nat)
    (pPdr : PacketDetectionRules) : Except runtime_error Unit × BPFMap :=
  let session := (mpSessionsMap.lookup seid session).2
  if session.pdrs_counter = 0 then
    (.error .no_pdr_to_delete, mpSessionsMap)
  else
    let r := std.remove_if session.pdrs 0 (0 + session.pdrs_counter)
      (fun pdr => pdr.pdr_id.rule_id == pPdr.getPdrId.rule_id)
    let session := { session with pdrs := r.1 }
    let pPdrEnd := r.2
    if 0 + session.pdrs_counter = pPdrEnd then
      (.error .pdr_not_found, mpSessionsMap)
    else
      let session := { session with pdrs := std.move session.pdrs 0 pPdrEnd 0 }
      let session := { session with pdrs_counter := session.pdrs_counter - 1 }
      (.ok (), (mpSessionsMap.update session.seid session .BPF_EXIST).2)

/-- Successive `addPDR` calls on one session, one per rule of the list: the
outcome of every call, in order, and the sessions map after the last one. -/
def addPDR_calls (SESSION_PDRS_MAX_SIZE : Nat) (session : pfcp_session_t_) (seid : Nat) :
    BPFMap → List PacketDetectionRules → List (Except runtime_error Unit) × BPFMap
  | m, [] => ([], m)
  | m, pPdr :: rest =>
    let r := addPDR SESSION_PDRS_MAX_SIZE m session seid pPdr
    let rs := addPDR_calls SESSION_PDRS_MAX_SIZE session seid r.2 rest
    (r.1 :: rs.1, rs.2)

/-- Successive `addFAR` calls on one session, as `addPDR_calls`. -/
def addFAR_calls (SESSION_FARS_MAX_SIZE : Nat) (session : pfcp_session_t_) (seid : Nat) :
    BPFMap → List ForwardingActionRules → List (Except runtime_error Unit) × BPFMap
  | m, [] => ([], m)
  | m, pFar :: rest =>
    let r := addFAR SESSION_FARS_MAX_SIZE m session seid pFar
    let rs := addFAR_calls SESSION_FARS_MAX_SIZE session seid r.2 rest
    (r.1 :: rs.1, rs.2)

/-! ### Two callers of `addFAR` at the same time

`addFAR` reads the session once (`lookup`, line 44) and writes it once
(`update`, line 59); the sessions map does each of the two atomically and
nothing else is shared.  Two calls that run at the same time are therefore an
interleaving of the two halves of each. -/

/-- The first half of `SessionManager::addFAR`, lines 41 to 56: the lookup into
the local `session`, the capacity test and the append to the local copy.  The
result is the exception thrown or the local record that is written back. -/
def addFAR_read (SESSION_FARS_MAX_SIZE : Nat) (mpSessionsMap : BPFMap)
    (session : pfcp_session_t_) (seid : Nat) (pFar : ForwardingActionRules) :
    Except runtime_error pfcp_session_t_ :=
  let session := (mpSessionsMap.lookup seid session).2
  if session.fars_counter ≥ SESSION_FARS_MAX_SIZE then
    .error .far_cannot_be_added
  else
    let index := session.fars_counter
    let session := { session with fars_counter := session.fars_counter + 1 }
    let session := { session with fars := session.fars.set index pFar.getData }
    .ok session

/-- The second half of `SessionManager::addFAR`, line 59: the write-back of the
local record, whose result is not looked at. -/
def addFAR_write (mpSessionsMap : BPFMap) (seid : Nat) (session : pfcp_session_t_) :
    BPFMap :=
  (mpSessionsMap.update seid session .BPF_EXIST).2

/-- A step of one of the two callers `A` and `B`. -/
inductive Step where
  | readA
  | writeA
  | readB
  | writeB
  deriving DecidableEq, Repr

/-- The sessions map and, for each caller, the local record its first half has
produced (or the exception it has thrown) and whether it has returned. -/
structure Callers where
  map : BPFMap
  localA : Option (Except runtime_error pfcp_session_t_)
  localB : Option (Except runtime_error pfcp_session_t_)
  returnedA : Option (Except runtime_error Unit)
  returnedB : Option (Except runtime_error Unit)

/-- One step of the two calls `addFAR(seid, pFarA)` and `addFAR(seid, pFarB)`;
`sessionA` and `sessionB` are the contents of their locals before the lookup.
A caller whose first half has thrown has returned; a second half that comes
before its first half does nothing. -/
def step (SESSION_FARS_MAX_SIZE : Nat) (sessionA sessionB : pfcp_session_t_) (seid : Nat)
    (pFarA pFarB : ForwardingActionRules) (c : Callers) : Step → Callers
  | .readA =>
    match addFAR_read SESSION_FARS_MAX_SIZE c.map sessionA seid pFarA with
    | .ok session => { c with localA := some (.ok session) }
    | .error e => { c with localA := some (.error e), returnedA := some (.error e) }
  | .readB =>
    match addFAR_read SESSION_FARS_MAX_SIZE c.map sessionB seid pFarB with
    | .ok session => { c with localB := some (.ok session) }
    | .error e => { c with localB := some (.error e), returnedB := some (.error e) }
  | .writeA =>
    match c.localA with
    | some (.ok session) =>
      { c with map := addFAR_write c.map seid session, returnedA := some (.ok ()) }
    | _ => c
  | .writeB =>
    match c.localB with
    | some (.ok session) =>
      { c with map := addFAR_write c.map seid session, returnedB := some (.ok ()) }
    | _ => c

/-- The two calls run under a schedule, from the sessions map `m`. -/
def run (SESSION_FARS_MAX_SIZE : Nat) (sessionA sessionB : pfcp_session_t_) (seid : Nat)
    (pFarA pFarB : ForwardingActionRules) (m : BPFMap) (schedule : List Step) : Callers :=
  schedule.foldl (step SESSION_FARS_MAX_SIZE sessionA sessionB seid pFarA pFarB)
    { map := m, localA := none, localB := none, returnedA := none, returnedB := none }

/-- The interleavings of the two calls: every order of the four steps in which
each caller reads before it writes. -/
def interleavings : List (List Step) :=
  [[.readA, .writeA, .readB, .writeB],
   [.readB, .writeB, .readA, .writeA],
   [.readA, .readB, .writeA, .writeB],
   [.readA, .readB, .writeB, .writeA],
   [.readB, .readA, .writeA, .writeB],
   [.readB, .readA, .writeB, .writeA]]

end SessionManager

/-! ## Concrete sessions used to exercise the operations -/

namespace Example

/-- A PDR value object with the given rule id and payload. -/
def pdr (rule_id payload : Nat) : PacketDetectionRules := ⟨⟨⟨rule_id⟩, payload⟩⟩

/-- A FAR value object with the given FAR id and payload. -/
def far (far_id payload : Nat) : ForwardingActionRules := ⟨⟨⟨far_id⟩, payload⟩⟩

/-- A zero-filled session record with key `seid`, for capacities 3 and 3. -/
def fresh (seid : Nat) : pfcp_session_t_ :=
  { seid := seid
    pdrs := List.replicate 3 ⟨⟨0⟩, 0⟩
    pdrs_counter := 0
    fars := List.replicate 3 ⟨⟨0⟩, 0⟩
    fars_counter := 0 }

/-- Some content of an uninitialised local `session`. -/
def stack : pfcp_session_t_ :=
  { seid := 77, pdrs := [], pdrs_counter := 9, fars := [], fars_counter := 9 }

/-- The sessions map after `createSession` of a fresh session 1. -/
def created : BPFMap := (SessionManager.createSession BPFMap.empty (fresh 1)).2

/-- The sessions map after adding the PDR with id 10 to session 1. -/
def after_add_10 : BPFMap := (SessionManager.addPDR 3 created stack 1 (pdr 10 100)).2

/-- The sessions map after adding the PDRs with ids 10 and 20 to session 1. -/
def after_add_20 : BPFMap := (SessionManager.addPDR 3 after_add_10 stack 1 (pdr 20 200)).2

/-- The record of session 1 in `after_add_20`. -/
def two_pdrs : pfcp_session_t_ :=
  { fresh 1 with
    pdrs := [⟨⟨10⟩, 100⟩, ⟨⟨20⟩, 200⟩, ⟨⟨0⟩, 0⟩]
    pdrs_counter := 2 }

/-- The record of session 1 in `after_add_10`. -/
def one_pdr : pfcp_session_t_ :=
  { fresh 1 with
    pdrs := [⟨⟨10⟩, 100⟩, ⟨⟨0⟩, 0⟩, ⟨⟨0⟩, 0⟩]
    pdrs_counter := 1 }

/-- The sessions map after adding to session 1 the PDRs with ids 1, 1 and 2, in
this order. -/
def pdr_ids_1_1_2 : BPFMap :=
  (SessionManager.addPDR_calls 3 stack 1 created [pdr 1 100, pdr 1 300, pdr 2 200]).2

/-- The sessions map after adding to session 1 the FARs with ids 1, 2 and 1, in
this order. -/
def far_ids_1_2_1 : BPFMap :=
  (SessionManager.addFAR_calls 3 stack 1 created [far 1 100, far 2 200, far 1 300]).2

/-- The sessions map after adding the FARs with ids 7 and 8 to session 1. -/
def after_add_fars : BPFMap :=
  (SessionManager.addFAR_calls 3 stack 1 created [far 7 70, far 8 80]).2

/-- The record of session 1 in `after_add_fars`. -/
def two_fars : pfcp_session_t_ :=
  { fresh 1 with
    fars := [⟨⟨7⟩, 70⟩, ⟨⟨8⟩, 80⟩, ⟨⟨0⟩, 0⟩]
    fars_counter := 2 }

/-- The record of session 1 after one of the FARs 7 and 8 only was added. -/
def one_far (far_id payload : Nat) : pfcp_session_t_ :=
  { fresh 1 with
    fars := [⟨⟨far_id⟩, payload⟩, ⟨⟨0⟩, 0⟩, ⟨⟨0⟩, 0⟩]
    fars_counter := 1 }

/-- A local `session` that holds a full FAR array and a full PDR array. -/
def full_stack : pfcp_session_t_ :=
  { fresh 0 with pdrs_counter := 3, fars_counter := 3 }

/-- The empty sessions map with room for one session only. -/
def small_map : BPFMap := { BPFMap.empty with max_entries := 1 }

/-- The map `small_map` after `createSession` of a fresh session 1: it is full. -/
def full_map : BPFMap := (SessionManager.createSession small_map (fresh 1)).2

end Example

/-! ## Properties of the algorithms -/

namespace std

variable {α : Type}

/-- The loop of `find_if` started at `first` with `n` elements left returns `first`
plus the position of the first match among those `n` elements. -/
theorem find_if_loop_eq (a : List α) (p : α → Bool) :
    ∀ (n first : Nat), first + n ≤ a.length →
      find_if_loop a p n first = first + ((a.drop first).take n).findIdx p
  | 0, first, _ => by simp [find_if_loop]
  | n + 1, first, h => by
    have hlt : first < a.length := by omega
    have ih := find_if_loop_eq a p n (first + 1) (by omega)
    rw [find_if_loop, List.getElem?_eq_getElem hlt, List.drop_eq_getElem_cons hlt,
      List.take_succ_cons, List.findIdx_cons]
    by_cases hp : p a[first] = true
    · simp [hp]
    · simp [hp, ih]; omega

/-- On a range that lies inside the array, `find_if` from the start of the array is
`List.findIdx` on the range. -/
theorem find_if_zero (a : List α) (p : α → Bool) (last : Nat) (h : last ≤ a.length) :
    find_if a 0 last p = (a.take last).findIdx p := by
  simp [find_if, find_if_loop_eq a p last 0 (by omega)]

/-- The scan of a range ends at `last` exactly when no element of the range
matches. -/
theorem findIdx_take_eq_iff (a : List α) (p : α → Bool) (last : Nat) (h : last ≤ a.length) :
    (a.take last).findIdx p = last ↔ ∀ x ∈ a.take last, p x = false := by
  have hlen : (a.take last).length = last := by simp [h]
  constructor
  · intro hf
    exact List.findIdx_eq_length.1 (hf.trans hlen.symm)
  · intro hall
    exact (List.findIdx_eq_length.2 hall).trans hlen

/-- The first match of a list is the element at the position `findIdx` gives. -/
theorem find?_eq_getElem?_findIdx (p : α → Bool) :
    ∀ (l : List α), l.find? p = l[l.findIdx p]?
  | [] => by simp
  | x :: l => by
    rw [List.findIdx_cons]
    by_cases hp : p x = true
    · simp [hp]
    · have hp' : p x = false := by simpa using hp
      simp [hp', find?_eq_getElem?_findIdx p l]

/-- An index whose element matches, with no match before it, is what `findIdx`
gives. -/
theorem findIdx_eq_of_first (p : α → Bool) (l : List α) (i : Nat) (x : α)
    (h : l[i]? = some x) (hp : p x = true)
    (hfirst : ∀ j y, j < i → l[j]? = some y → p y = false) : l.findIdx p = i := by
  obtain ⟨hi, hx⟩ := List.getElem?_eq_some_iff.1 h
  rw [List.findIdx_eq hi]
  refine ⟨by rw [hx]; exact hp, ?_⟩
  intro j hji
  exact hfirst j _ hji (List.getElem?_eq_getElem (by omega))

/-- Writing to a cell the value it holds changes nothing. -/
theorem set_of_getElem? (a : List α) (i : Nat) (x : α) (h : a[i]? = some x) :
    a.set i x = a := by
  apply List.ext_getElem?
  intro j
  rw [List.getElem?_set]
  by_cases hij : i = j
  · subst hij
    have hl : i < a.length := (List.getElem?_eq_some_iff.1 h).1
    simp [hl, h]
  · simp [hij]

/-- The first `i + 1` cells after a write to cell `i`. -/
theorem take_succ_set (a : List α) (i : Nat) (x : α) (h : i < a.length) :
    (a.set i x).take (i + 1) = a.take i ++ [x] := by
  rw [List.take_succ, List.set_take, List.set_eq_of_length_le (by simp)]
  simp [h]

/-- Moving a range onto itself changes nothing. -/
theorem move_loop_self :
    ∀ (n first : Nat) (a : List α), move_loop n first first a = a
  | 0, _, _ => rfl
  | n + 1, first, a => by
    rw [move_loop]
    cases h : a[first]? with
    | none => rfl
    | some x =>
      simp only [set_of_getElem? a first x h]
      exact move_loop_self n (first + 1) a

/-- The call `std::move(a + first, a + last, a + first)` changes nothing. -/
theorem move_self (a : List α) (first last : Nat) : move a first last first = a :=
  move_loop_self _ _ _

/-- Invariant of the loop of `remove_if`: the array keeps its length, the cells
below the final `first` are the cells that were below `first` followed by the
kept elements of the part still to scan, in order, and nothing at or after
`last` is touched. -/
theorem remove_if_loop_spec (p : α → Bool) :
    ∀ (n i first : Nat) (a : List α), first ≤ i → i + n ≤ a.length →
      (remove_if_loop p n i first a).1.length = a.length ∧
      (remove_if_loop p n i first a).2 =
        first + (((a.drop i).take n).filter (fun x => !p x)).length ∧
      (remove_if_loop p n i first a).1.take (remove_if_loop p n i first a).2 =
        a.take first ++ ((a.drop i).take n).filter (fun x => !p x) ∧
      (remove_if_loop p n i first a).1.drop (i + n) = a.drop (i + n)
  | 0, i, first, a, _, _ => by simp [remove_if_loop]
  | n + 1, i, first, a, hfi, hlen => by
    have hlt : i < a.length := by omega
    rw [remove_if_loop, List.getElem?_eq_getElem hlt, List.drop_eq_getElem_cons hlt,
      List.take_succ_cons]
    by_cases hp : p a[i] = true
    · have ih := remove_if_loop_spec p n (i + 1) first a (by omega) (by omega)
      simp only [hp, Bool.not_true, Bool.false_eq_true, ↓reduceIte, List.filter_cons]
      refine ⟨ih.1, ih.2.1, ih.2.2.1, ?_⟩
      have := ih.2.2.2
      rwa [show i + 1 + n = i + (n + 1) by omega] at this
    · have hp' : p a[i] = false := by simpa using hp
      have ih := remove_if_loop_spec p n (i + 1) (first + 1) (a.set first a[i])
        (by omega) (by simp; omega)
      have hdrop : (a.set first a[i]).drop (i + 1) = a.drop (i + 1) :=
        List.drop_set_of_lt _ _ (by omega)
      have htake : (a.set first a[i]).take (first + 1) = a.take first ++ [a[i]] :=
        take_succ_set a first _ (by omega)
      simp only [hp', Bool.not_false, ↓reduceIte, List.filter_cons]
      rw [hdrop, htake] at ih
      refine ⟨by simpa using ih.1, ?_, ?_, ?_⟩
      · rw [ih.2.1]; simp; omega
      · rw [ih.2.2.1]; simp
      · have := ih.2.2.2
        rw [show i + 1 + n = i + (n + 1) by omega] at this
        rw [this, List.drop_set_of_lt _ _ (by omega)]

/-- Splitting the kept elements of a list at its first match. -/
theorem filter_not_of_findIdx (p : α → Bool) :
    ∀ (l : List α), l.findIdx p < l.length →
      l.filter (fun x => !p x) =
        l.take (l.findIdx p) ++ (l.drop (l.findIdx p + 1)).filter (fun x => !p x)
  | [], h => by simp at h
  | x :: l, h => by
    rw [List.findIdx_cons] at h ⊢
    by_cases hp : p x = true
    · simp [hp]
    · have hp' : p x = false := by simpa using hp
      simp only [hp', cond_false] at h ⊢
      have ih := filter_not_of_findIdx p l (by simpa using h)
      simp [hp', ← ih]

/-- A list without a match is kept whole. -/
theorem filter_not_of_findIdx_eq_length (p : α → Bool) (l : List α)
    (h : l.findIdx p = l.length) : l.filter (fun x => !p x) = l := by
  rw [List.filter_eq_self]
  intro x hx
  have := List.findIdx_eq_length.1 h x hx
  simp [this]

/-- When exactly one cell matches, keeping the others is erasing that cell. -/
theorem filter_not_eq_eraseIdx (p : α → Bool) :
    ∀ (l : List α) (i : Nat) (x : α), l[i]? = some x → p x = true →
      (∀ j y, l[j]? = some y → p y = true → j = i) →
      l.filter (fun y => !p y) = l.eraseIdx i
  | [], _, _, h, _, _ => by simp at h
  | a :: l, 0, x, h, hp, hu => by
    have hax : a = x := by simpa using h
    subst hax
    have hrest : ∀ y ∈ l, p y = false := by
      intro y hy
      obtain ⟨j, hj, hjy⟩ := List.getElem_of_mem hy
      by_contra hne
      have hpy : p y = true := by simpa using hne
      have := hu (j + 1) y (by simp [List.getElem?_eq_getElem hj, hjy]) hpy
      omega
    have hf : l.filter (fun y => !p y) = l := by
      rw [List.filter_eq_self]; intro y hy; simp [hrest y hy]
    simp [hp, hf]
  | a :: l, i + 1, x, h, hp, hu => by
    have hpa : p a = false := by
      by_contra hne
      have hpa : p a = true := by simpa using hne
      have := hu 0 a (by simp) hpa
      omega
    have ih := filter_not_eq_eraseIdx p l i x (by simpa using h) hp (by
      intro j y hj hpy
      have := hu (j + 1) y (by simpa using hj) hpy
      omega)
    simp [hpa, ih]

/-- What `remove_if` does on a range `[0, last)` inside the array: the length is
kept, the new logical end is the number of kept elements, the cells below it
are the kept elements in their order, and nothing at or after `last` is
touched. -/
theorem remove_if_spec (a : List α) (p : α → Bool) (last : Nat) (h : last ≤ a.length) :
    (remove_if a 0 last p).1.length = a.length ∧
    (remove_if a 0 last p).2 = ((a.take last).filter (fun x => !p x)).length ∧
    (remove_if a 0 last p).1.take (remove_if a 0 last p).2 =
      (a.take last).filter (fun x => !p x) ∧
    (remove_if a 0 last p).1.drop last = a.drop last := by
  have hlen : (a.take last).length = last := by simp [h]
  unfold remove_if
  simp only [find_if_zero a p last h]
  by_cases hf : (a.take last).findIdx p = last
  · have hall := filter_not_of_findIdx_eq_length p (a.take last) (by rw [hf, hlen])
    simp [hf, hall, hlen]
  · have hle : (a.take last).findIdx p ≤ last := by
      have := @List.findIdx_le_length _ p (a.take last); omega
    have hlt : (a.take last).findIdx p < (a.take last).length := by omega
    have hsplit := filter_not_of_findIdx p (a.take last) hlt
    generalize hfe : (a.take last).findIdx p = f at *
    have hspec := remove_if_loop_spec p (last - (f + 1)) (f + 1) f a (by omega) (by omega)
    have e1 : f + 1 + (last - (f + 1)) = last := by omega
    have e2 : (a.take last).take f = a.take f := by
      rw [List.take_take]; congr 1; omega
    have e3 : (a.take last).drop (f + 1) = (a.drop (f + 1)).take (last - (f + 1)) := by
      rw [List.drop_take]
    rw [e2, e3] at hsplit
    simp only [hf, ne_eq, not_false_eq_true, ↓reduceIte]
    rw [e1] at hspec
    refine ⟨hspec.1, ?_, ?_, hspec.2.2.2⟩
    · rw [hspec.2.1, hsplit]; simp; omega
    · rw [hspec.2.2.1, hsplit]

/-- The new logical end is `last` exactly when no element of the range matches. -/
theorem remove_if_eq_last_iff (a : List α) (p : α → Bool) (last : Nat) (h : last ≤ a.length) :
    (remove_if a 0 last p).2 = last ↔ ∀ x ∈ a.take last, p x = false := by
  have hlen : (a.take last).length = last := by simp [h]
  rw [(remove_if_spec a p last h).2.1]
  constructor
  · intro hl x hx
    have : (a.take last).filter (fun x => !p x) = a.take last := by
      apply List.Sublist.eq_of_length (List.filter_sublist _)
      rw [hl, hlen]
    have hx' : x ∈ (a.take last).filter (fun x => !p x) := by rw [this]; exact hx
    simpa using (List.mem_filter.1 hx').2
  · intro hall
    have : (a.take last).filter (fun x => !p x) = a.take last := by
      rw [List.filter_eq_self]; intro x hx; simp [hall x hx]
    rw [this, hlen]

/-- Without a match `remove_if` leaves the array as it was and returns `last`. -/
theorem remove_if_of_none (a : List α) (p : α → Bool) (last : Nat) (h : last ≤ a.length)
    (hall : ∀ x ∈ a.take last, p x = false) : remove_if a 0 last p = (a, last) := by
  have hlen : (a.take last).length = last := by simp [h]
  unfold remove_if
  simp only [find_if_zero a p last h]
  have : (a.take last).findIdx p = last :=
    (List.findIdx_eq_length.2 hall).trans hlen
  simp [this]

end std

/-! ## Properties of the sessions map -/

namespace BPFMap

/-- A lookup of a present key succeeds with the stored record. -/
theorem lookup_of_some {m : BPFMap} {key : Nat} {s : pfcp_session_t_} (h : m key = some s)
    (value : pfcp_session_t_) : m.lookup key value = (0, s) := by
  simp [lookup, h]

/-- Replacing the value of a present key succeeds. -/
theorem update_EXIST_of_some {m : BPFMap} {key : Nat} {s : pfcp_session_t_}
    (h : m key = some s) (value : pfcp_session_t_) :
    m.update key value .BPF_EXIST = (0, m.put key value) := by
  simp [update, h]

/-- Creating a present key fails and leaves the map as it was. -/
theorem update_NOEXIST_of_some {m : BPFMap} {key : Nat} {s : pfcp_session_t_}
    (h : m key = some s) (value : pfcp_session_t_) :
    m.update key value .BPF_NOEXIST = (-1, m) := by
  simp [update, h]

/-- Creating an absent key succeeds when the map has room. -/
theorem update_NOEXIST_of_none {m : BPFMap} {key : Nat} (h : m key = none)
    (hroom : m.size < m.max_entries) (value : pfcp_session_t_) :
    m.update key value .BPF_NOEXIST = (0, m.insert key value) := by
  simp [update, h, hroom]

/-- Creating an absent key fails when the map is full, and leaves the map as it
was. -/
theorem update_NOEXIST_of_full {m : BPFMap} {key : Nat} (h : m key = none)
    (hfull : ¬ m.size < m.max_entries) (value : pfcp_session_t_) :
    m.update key value .BPF_NOEXIST = (-1, m) := by
  simp [update, h, hfull]

/-- The value read back under the key just created. -/
theorem insert_same (m : BPFMap) (key : Nat) (value : pfcp_session_t_) :
    m.insert key value key = some value := by
  simp [insert, put]

/-- Creating one key leaves the others as they were. -/
theorem insert_other (m : BPFMap) {key k : Nat} (value : pfcp_session_t_) (h : k ≠ key) :
    m.insert key value k = m k := by
  simp [insert, put, h]

/-- The value read back under the key just written. -/
theorem put_same (m : BPFMap) (key : Nat) (value : pfcp_session_t_) :
    m.put key value key = some value := by
  simp [put]

/-- Writing under one key leaves the others as they were. -/
theorem put_other (m : BPFMap) {key k : Nat} (value : pfcp_session_t_) (h : k ≠ key) :
    m.put key value k = m k := by
  simp [put, h]

end BPFMap

namespace SessionManager

/-! ## What each operation does on a stored session -/

/-- On a present key `createSession` throws and leaves the map as it was. -/
theorem createSession_of_some {m : BPFMap} {pSession s : pfcp_session_t_}
    (h : m pSession.seid = some s) :
    createSession m pSession = (.error .cannot_create_session, m) := by
  simp [createSession, BPFMap.update_NOEXIST_of_some h]

/-- On an absent key, in a map with room, `createSession` stores the record
under its `seid`. -/
theorem createSession_of_none {m : BPFMap} {pSession : pfcp_session_t_}
    (h : m pSession.seid = none) (hroom : m.size < m.max_entries) :
    createSession m pSession = (.ok (), m.insert pSession.seid pSession) := by
  simp [createSession, BPFMap.update_NOEXIST_of_none h hroom]

/-- On an absent key, in a full map, `createSession` throws and leaves the map
as it was. -/
theorem createSession_of_full {m : BPFMap} {pSession : pfcp_session_t_}
    (h : m pSession.seid = none) (hfull : ¬ m.size < m.max_entries) :
    createSession m pSession = (.error .cannot_create_session, m) := by
  simp [createSession, BPFMap.update_NOEXIST_of_full h hfull]

/-- What `addPDR` does on a stored session. -/
theorem addPDR_of_some (P : Nat) {m : BPFMap} {seid : Nat} {s : pfcp_session_t_}
    (h : m seid = some s) (session : pfcp_session_t_) (pPdr : PacketDetectionRules) :
    addPDR P m session seid pPdr =
      if P ≤ s.pdrs_counter then (.error .pdr_cannot_be_added, m)
      else (.ok (), m.put seid { s with
        pdrs_counter := s.pdrs_counter + 1
        pdrs := s.pdrs.set s.pdrs_counter pPdr.getData }) := by
  simp only [addPDR, BPFMap.lookup_of_some h, ge_iff_le]
  split
  · rfl
  · rw [BPFMap.update_EXIST_of_some h]

/-- What `addFAR` does on a stored session. -/
theorem addFAR_of_some (F : Nat) {m : BPFMap} {seid : Nat} {s : pfcp_session_t_}
    (h : m seid = some s) (session : pfcp_session_t_) (pFar : ForwardingActionRules) :
    addFAR F m session seid pFar =
      if F ≤ s.fars_counter then (.error .far_cannot_be_added, m)
      else (.ok (), m.put seid { s with
        fars_counter := s.fars_counter + 1
        fars := s.fars.set s.fars_counter pFar.getData }) := by
  simp only [addFAR, BPFMap.lookup_of_some h, ge_iff_le]
  split
  · rfl
  · rw [BPFMap.update_EXIST_of_some h]

/-- Successive `addPDR` calls over a concatenation. -/
theorem addPDR_calls_append (P : Nat) (session : pfcp_session_t_) (seid : Nat) :
    ∀ (xs ys : List PacketDetectionRules) (m : BPFMap),
      addPDR_calls P session seid m (xs ++ ys) =
        ((addPDR_calls P session seid m xs).1 ++
            (addPDR_calls P session seid (addPDR_calls P session seid m xs).2 ys).1,
          (addPDR_calls P session seid (addPDR_calls P session seid m xs).2 ys).2)
  | [], ys, m => by simp [addPDR_calls]
  | x :: xs, ys, m => by
    simp [addPDR_calls, addPDR_calls_append P session seid xs ys]

/-- Successive `addFAR` calls over a concatenation. -/
theorem addFAR_calls_append (F : Nat) (session : pfcp_session_t_) (seid : Nat) :
    ∀ (xs ys : List ForwardingActionRules) (m : BPFMap),
      addFAR_calls F session seid m (xs ++ ys) =
        ((addFAR_calls F session seid m xs).1 ++
            (addFAR_calls F session seid (addFAR_calls F session seid m xs).2 ys).1,
          (addFAR_calls F session seid (addFAR_calls F session seid m xs).2 ys).2)
  | [], ys, m => by simp [addFAR_calls]
  | x :: xs, ys, m => by
    simp [addFAR_calls, addFAR_calls_append F session seid xs ys]

/-- As long as the capacity is not exceeded every `addPDR` call succeeds, and the
counter grows by the number of calls. -/
theorem addPDR_calls_below_capacity (P : Nat) (session : pfcp_session_t_) (seid : Nat) :
    ∀ (rs : List PacketDetectionRules) (m : BPFMap) (s : pfcp_session_t_),
      m seid = some s → s.pdrs.length = P → s.pdrs_counter + rs.length ≤ P →
      (addPDR_calls P session seid m rs).1 = List.replicate rs.length (.ok ()) ∧
      ∃ s', (addPDR_calls P session seid m rs).2 seid = some s' ∧
        s'.pdrs_counter = s.pdrs_counter + rs.length ∧ s'.pdrs.length = P
  | [], m, s, hs, hlen, _ => by simp [addPDR_calls, hs, hlen]
  | r :: rs, m, s, hs, hlen, hle => by
    have hlt : ¬ P ≤ s.pdrs_counter := by simp at hle; omega
    have hadd := addPDR_of_some P hs session r
    rw [if_neg hlt] at hadd
    have ih := addPDR_calls_below_capacity P session seid rs
      (m.put seid { s with
        pdrs_counter := s.pdrs_counter + 1
        pdrs := s.pdrs.set s.pdrs_counter r.getData })
      { s with
        pdrs_counter := s.pdrs_counter + 1
        pdrs := s.pdrs.set s.pdrs_counter r.getData }
      (BPFMap.put_same m seid _) (by simpa using hlen) (by simp at hle ⊢; omega)
    obtain ⟨ih1, s', ih2, ih3, ih4⟩ := ih
    simp only [addPDR_calls, hadd, List.length_cons, List.replicate_succ]
    refine ⟨by rw [ih1], s', ih2, ?_, ih4⟩
    rw [ih3]; simp only [List.length_cons]; omega

/-- As long as the capacity is not exceeded every `addFAR` call succeeds, and the
counter grows by the number of calls. -/
theorem addFAR_calls_below_capacity (F : Nat) (session : pfcp_session_t_) (seid : Nat) :
    ∀ (rs : List ForwardingActionRules) (m : BPFMap) (s : pfcp_session_t_),
      m seid = some s → s.fars.length = F → s.fars_counter + rs.length ≤ F →
      (addFAR_calls F session seid m rs).1 = List.replicate rs.length (.ok ()) ∧
      ∃ s', (addFAR_calls F session seid m rs).2 seid = some s' ∧
        s'.fars_counter = s.fars_counter + rs.length ∧ s'.fars.length = F
  | [], m, s, hs, hlen, _ => by simp [addFAR_calls, hs, hlen]
  | r :: rs, m, s, hs, hlen, hle => by
    have hlt : ¬ F ≤ s.fars_counter := by simp at hle; omega
    have hadd := addFAR_of_some F hs session r
    rw [if_neg hlt] at hadd
    have ih := addFAR_calls_below_capacity F session seid rs
      (m.put seid { s with
        fars_counter := s.fars_counter + 1
        fars := s.fars.set s.fars_counter r.getData })
      { s with
        fars_counter := s.fars_counter + 1
        fars := s.fars.set s.fars_counter r.getData }
      (BPFMap.put_same m seid _) (by simpa using hlen) (by simp at hle ⊢; omega)
    obtain ⟨ih1, s', ih2, ih3, ih4⟩ := ih
    simp only [addFAR_calls, hadd, List.length_cons, List.replicate_succ]
    refine ⟨by rw [ih1], s', ih2, ?_, ih4⟩
    rw [ih3]; simp only [List.length_cons]; omega

/-- A list of `n + 1` elements is `n` elements followed by a last one. -/
theorem split_last {β : Type} (rs : List β) (n : Nat) (h : rs.length = n + 1) :
    ∃ (xs : List β) (y : β), rs = xs ++ [y] ∧ xs.length = n := by
  have hne : rs ≠ [] := by intro h0; simp [h0] at h
  refine ⟨rs.dropLast, rs.getLast hne, (List.dropLast_append_getLast hne).symm, ?_⟩
  simp [h]

/-- On a stored session `lookupPDR` is a find-first over the valid prefix and
returns the map as it was. -/
theorem lookupPDR_of_some {m : BPFMap} {seid : Nat} {s : pfcp_session_t_}
    (h : m seid = some s) (hc : s.pdrs_counter ≤ s.pdrs.length) (session : pfcp_session_t_)
    (pdrId : pdr_id_t_) :
    lookupPDR m session seid pdrId =
      (((s.pdrs.take s.pdrs_counter).find?
          (fun pdr => pdr.pdr_id.rule_id == pdrId.rule_id)).map RulesUtilities.createPDR, m) := by
  have hlen : (s.pdrs.take s.pdrs_counter).length = s.pdrs_counter := by simp [hc]
  simp only [lookupPDR, BPFMap.lookup_of_some h, Nat.zero_add, std.find_if_zero _ _ _ hc]
  rw [std.find?_eq_getElem?_findIdx]
  by_cases h0 : s.pdrs_counter = 0
  · simp [h0]
  · rw [if_neg h0]
    split
    · next hf =>
      have : (s.pdrs.take s.pdrs_counter)[s.pdrs_counter]? = none := by
        rw [List.getElem?_eq_none_iff]; omega
      rw [hf, this]; rfl
    · next hf =>
      have hle := @List.findIdx_le_length _
        (fun pdr : pfcp_pdr_t_ => pdr.pdr_id.rule_id == pdrId.rule_id)
        (s.pdrs.take s.pdrs_counter)
      rw [List.getElem?_take_of_lt (by omega)]

/-- On a stored session `lookupFAR` is a find-first over the valid prefix and
returns the map as it was. -/
theorem lookupFAR_of_some {m : BPFMap} {seid : Nat} {s : pfcp_session_t_}
    (h : m seid = some s) (hc : s.fars_counter ≤ s.fars.length) (session : pfcp_session_t_)
    (farId : far_id_t_) :
    lookupFAR m session seid farId =
      (((s.fars.take s.fars_counter).find?
          (fun far => far.far_id.far_id == farId.far_id)).map RulesUtilities.createFAR, m) := by
  have hlen : (s.fars.take s.fars_counter).length = s.fars_counter := by simp [hc]
  simp only [lookupFAR, BPFMap.lookup_of_some h, Nat.zero_add, std.find_if_zero _ _ _ hc]
  rw [std.find?_eq_getElem?_findIdx]
  by_cases h0 : s.fars_counter = 0
  · simp [h0]
  · rw [if_neg h0]
    split
    · next hf =>
      have : (s.fars.take s.fars_counter)[s.fars_counter]? = none := by
        rw [List.getElem?_eq_none_iff]; omega
      rw [hf, this]; rfl
    · next hf =>
      have hle := @List.findIdx_le_length _
        (fun far : pfcp_far_t_ => far.far_id.far_id == farId.far_id)
        (s.fars.take s.fars_counter)
      rw [List.getElem?_take_of_lt (by omega)]

/-- The outcome of `updateFAR` on a stored session, and the map after a failure. -/
theorem updateFAR_outcome {m : BPFMap} {seid : Nat} {s : pfcp_session_t_}
    (h : m seid = some s) (hc : s.fars_counter ≤ s.fars.length) (session : pfcp_session_t_)
    (pFar : ForwardingActionRules) :
    ((updateFAR m session seid pFar).1 =
      if s.fars_counter = 0 then .error .no_far_to_update
      else if (s.fars.take s.fars_counter).findIdx
          (fun far => far.far_id.far_id == pFar.getFARId.far_id) = s.fars_counter then
        .error .far_not_found
      else .ok ()) ∧
    ((updateFAR m session seid pFar).1 ≠ .ok () → (updateFAR m session seid pFar).2 = m) := by
  simp only [updateFAR, BPFMap.lookup_of_some h, Nat.zero_add, std.find_if_zero _ _ _ hc]
  split
  · exact ⟨rfl, fun _ => rfl⟩
  · split
    · exact ⟨rfl, fun _ => rfl⟩
    · exact ⟨rfl, fun hne => absurd rfl hne⟩

/-- The outcome of `updatePDR` on a stored session, and the map after a failure. -/
theorem updatePDR_outcome {m : BPFMap} {seid : Nat} {s : pfcp_session_t_}
    (h : m seid = some s) (hc : s.pdrs_counter ≤ s.pdrs.length) (session : pfcp_session_t_)
    (pPdr : PacketDetectionRules) :
    ((updatePDR m session seid pPdr).1 =
      if s.pdrs_counter = 0 then .error .no_pdr_to_update
      else if (s.pdrs.take s.pdrs_counter).findIdx
          (fun pdr => pdr.pdr_id.rule_id == pPdr.getPdrId.rule_id) = s.pdrs_counter then
        .error .pdr_not_found
      else .ok ()) ∧
    ((updatePDR m session seid pPdr).1 ≠ .ok () → (updatePDR m session seid pPdr).2 = m) := by
  simp only [updatePDR, BPFMap.lookup_of_some h, Nat.zero_add, std.find_if_zero _ _ _ hc]
  split
  · exact ⟨rfl, fun _ => rfl⟩
  · split
    · exact ⟨rfl, fun _ => rfl⟩
    · exact ⟨rfl, fun hne => absurd rfl hne⟩

/-- When index `i` is the first match of the valid prefix, `updateFAR` overwrites
that cell and replaces the stored record. -/
theorem updateFAR_first_match {m : BPFMap} {seid : Nat} {s : pfcp_session_t_}
    (hs : m seid = some s) (hc : s.fars_counter ≤ s.fars.length) (session : pfcp_session_t_)
    (pFar : ForwardingActionRules) (i : Nat) (x : pfcp_far_t_) (hi : i < s.fars_counter)
    (hx : s.fars[i]? = some x) (hid : x.far_id.far_id = pFar.getFARId.far_id)
    (hfirst : ∀ j y, j < i → s.fars[j]? = some y →
      y.far_id.far_id ≠ pFar.getFARId.far_id) :
    updateFAR m session seid pFar =
      (.ok (), m.put seid { s with fars := s.fars.set i (RulesUtilities.copyFAR x pFar) }) := by
  have hidx : (s.fars.take s.fars_counter).findIdx
      (fun far => far.far_id.far_id == pFar.getFARId.far_id) = i :=
    std.findIdx_eq_of_first _ _ i x (by rw [List.getElem?_take_of_lt hi]; exact hx)
      (by simpa using hid) (by
        intro j y hj hy
        rw [List.getElem?_take_of_lt (by omega)] at hy
        simpa using hfirst j y hj hy)
  simp only [updateFAR, BPFMap.lookup_of_some hs, Nat.zero_add, std.find_if_zero _ _ _ hc,
    hidx, BPFMap.update_EXIST_of_some hs]
  rw [if_neg (by omega), if_neg (by omega)]
  simp only [hx]

/-- When index `i` is the first match of the valid prefix, `updatePDR` overwrites
that cell and replaces the stored record. -/
theorem updatePDR_first_match {m : BPFMap} {seid : Nat} {s : pfcp_session_t_}
    (hs : m seid = some s) (hc : s.pdrs_counter ≤ s.pdrs.length) (session : pfcp_session_t_)
    (pPdr : PacketDetectionRules) (i : Nat) (x : pfcp_pdr_t_) (hi : i < s.pdrs_counter)
    (hx : s.pdrs[i]? = some x) (hid : x.pdr_id.rule_id = pPdr.getPdrId.rule_id)
    (hfirst : ∀ j y, j < i → s.pdrs[j]? = some y →
      y.pdr_id.rule_id ≠ pPdr.getPdrId.rule_id) :
    updatePDR m session seid pPdr =
      (.ok (), m.put seid { s with pdrs := s.pdrs.set i (RulesUtilities.copyPDR x pPdr) }) := by
  have hidx : (s.pdrs.take s.pdrs_counter).findIdx
      (fun pdr => pdr.pdr_id.rule_id == pPdr.getPdrId.rule_id) = i :=
    std.findIdx_eq_of_first _ _ i x (by rw [List.getElem?_take_of_lt hi]; exact hx)
      (by simpa using hid) (by
        intro j y hj hy
        rw [List.getElem?_take_of_lt (by omega)] at hy
        simpa using hfirst j y hj hy)
  simp only [updatePDR, BPFMap.lookup_of_some hs, Nat.zero_add, std.find_if_zero _ _ _ hc,
    hidx, BPFMap.update_EXIST_of_some hs]
  rw [if_neg (by omega), if_neg (by omega)]
  simp only [hx]

/-- What `removePDR` does on a stored session. -/
theorem removePDR_of_some {m : BPFMap} {seid : Nat} {s : pfcp_session_t_}
    (h : m seid = some s) (session : pfcp_session_t_) (pPdr : PacketDetectionRules) :
    removePDR m session seid pPdr =
      if s.pdrs_counter = 0 then (.error .no_pdr_to_delete, m)
      else if s.pdrs_counter = (std.remove_if s.pdrs 0 s.pdrs_counter
          (fun pdr => pdr.pdr_id.rule_id == pPdr.getPdrId.rule_id)).2 then
        (.error .pdr_not_found, m)
      else (.ok (), (m.update s.seid { s with
        pdrs := (std.remove_if s.pdrs 0 s.pdrs_counter
          (fun pdr => pdr.pdr_id.rule_id == pPdr.getPdrId.rule_id)).1
        pdrs_counter := s.pdrs_counter - 1 } .BPF_EXIST).2) := by
  simp only [removePDR, BPFMap.lookup_of_some h, Nat.zero_add, std.move_self]

/-- What `removeFAR` does on a stored session. -/
theorem removeFAR_of_some {m : BPFMap} {seid : Nat} {s : pfcp_session_t_}
    (h : m seid = some s) (session : pfcp_session_t_) (pFar : ForwardingActionRules) :
    removeFAR m session seid pFar =
      if s.fars_counter = 0 then (.error .no_far_to_delete, m)
      else if s.fars_counter = (std.remove_if s.fars 0 s.fars_counter
          (fun far => far.far_id.far_id == pFar.getFARId.far_id)).2 then
        (.error .pdr_not_found, m)
      else (.ok (), (m.update s.seid { s with
        fars := (std.remove_if s.fars 0 s.fars_counter
          (fun far => far.far_id.far_id == pFar.getFARId.far_id)).1
        fars_counter := s.fars_counter - 1 } .BPF_EXIST).2) := by
  simp only [removeFAR, BPFMap.lookup_of_some h, Nat.zero_add, std.move_self]

/-- When exactly one entry of the valid prefix has the target id, `removePDR`
succeeds and the new valid prefix is the old one without that entry. -/
theorem removePDR_unique {m : BPFMap} {seid : Nat} {s : pfcp_session_t_}
    (hs : m seid = some s) (hseid : s.seid = seid) (session : pfcp_session_t_)
    (pPdr : PacketDetectionRules) (i : Nat) (x : pfcp_pdr_t_)
    (hc : s.pdrs_counter ≤ s.pdrs.length) (hi : i < s.pdrs_counter)
    (hx : s.pdrs[i]? = some x) (hid : x.pdr_id.rule_id = pPdr.getPdrId.rule_id)
    (hu : ∀ j y, j < s.pdrs_counter → s.pdrs[j]? = some y →
      y.pdr_id.rule_id = pPdr.getPdrId.rule_id → j = i) :
    (removePDR m session seid pPdr).1 = .ok () ∧
    ∃ s', (removePDR m session seid pPdr).2 seid = some s' ∧
      s'.pdrs_counter = s.pdrs_counter - 1 ∧
      s'.pdrs.length = s.pdrs.length ∧
      s'.pdrs.take s'.pdrs_counter = (s.pdrs.take s.pdrs_counter).eraseIdx i ∧
      (s.pdrs.take s.pdrs_counter).eraseIdx i =
        (s.pdrs.take s.pdrs_counter).filter
          (fun pdr => !(pdr.pdr_id.rule_id == pPdr.getPdrId.rule_id)) := by
  have hlen : (s.pdrs.take s.pdrs_counter).length = s.pdrs_counter := by simp [hc]
  have hLi : (s.pdrs.take s.pdrs_counter)[i]? = some x := by
    rw [List.getElem?_take_of_lt hi]; exact hx
  have herase := std.filter_not_eq_eraseIdx
    (fun pdr : pfcp_pdr_t_ => pdr.pdr_id.rule_id == pPdr.getPdrId.rule_id)
    (s.pdrs.take s.pdrs_counter) i x hLi (by simpa using hid) (by
      intro j y hj hy
      have hjc : j < s.pdrs_counter := by
        have := (List.getElem?_eq_some_iff.1 hj).1; omega
      rw [List.getElem?_take_of_lt hjc] at hj
      exact hu j y hjc hj (by simpa using hy))
  obtain ⟨r1, r2, r3, _⟩ := std.remove_if_spec s.pdrs
    (fun pdr : pfcp_pdr_t_ => pdr.pdr_id.rule_id == pPdr.getPdrId.rule_id) s.pdrs_counter hc
  have hr2 : (std.remove_if s.pdrs 0 s.pdrs_counter
      (fun pdr : pfcp_pdr_t_ => pdr.pdr_id.rule_id == pPdr.getPdrId.rule_id)).2 =
      s.pdrs_counter - 1 := by
    rw [r2, herase, List.length_eraseIdx, hlen, if_pos hi]
  rw [removePDR_of_some hs, if_neg (by omega), if_neg (by omega), hseid,
    BPFMap.update_EXIST_of_some hs]
  refine ⟨rfl, _, BPFMap.put_same _ _ _, rfl, r1, ?_, herase.symm⟩
  show List.take (s.pdrs_counter - 1) _ = _
  rw [← hr2, r3, herase]

/-- When exactly one entry of the valid prefix has the target id, `removeFAR`
succeeds and the new valid prefix is the old one without that entry. -/
theorem removeFAR_unique {m : BPFMap} {seid : Nat} {s : pfcp_session_t_}
    (hs : m seid = some s) (hseid : s.seid = seid) (session : pfcp_session_t_)
    (pFar : ForwardingActionRules) (i : Nat) (x : pfcp_far_t_)
    (hc : s.fars_counter ≤ s.fars.length) (hi : i < s.fars_counter)
    (hx : s.fars[i]? = some x) (hid : x.far_id.far_id = pFar.getFARId.far_id)
    (hu : ∀ j y, j < s.fars_counter → s.fars[j]? = some y →
      y.far_id.far_id = pFar.getFARId.far_id → j = i) :
    (removeFAR m session seid pFar).1 = .ok () ∧
    ∃ s', (removeFAR m session seid pFar).2 seid = some s' ∧
      s'.fars_counter = s.fars_counter - 1 ∧
      s'.fars.length = s.fars.length ∧
      s'.fars.take s'.fars_counter = (s.fars.take s.fars_counter).eraseIdx i ∧
      (s.fars.take s.fars_counter).eraseIdx i =
        (s.fars.take s.fars_counter).filter
          (fun far => !(far.far_id.far_id == pFar.getFARId.far_id)) := by
  have hlen : (s.fars.take s.fars_counter).length = s.fars_counter := by simp [hc]
  have hLi : (s.fars.take s.fars_counter)[i]? = some x := by
    rw [List.getElem?_take_of_lt hi]; exact hx
  have herase := std.filter_not_eq_eraseIdx
    (fun far : pfcp_far_t_ => far.far_id.far_id == pFar.getFARId.far_id)
    (s.fars.take s.fars_counter) i x hLi (by simpa using hid) (by
      intro j y hj hy
      have hjc : j < s.fars_counter := by
        have := (List.getElem?_eq_some_iff.1 hj).1; omega
      rw [List.getElem?_take_of_lt hjc] at hj
      exact hu j y hjc hj (by simpa using hy))
  obtain ⟨r1, r2, r3, _⟩ := std.remove_if_spec s.fars
    (fun far : pfcp_far_t_ => far.far_id.far_id == pFar.getFARId.far_id) s.fars_counter hc
  have hr2 : (std.remove_if s.fars 0 s.fars_counter
      (fun far : pfcp_far_t_ => far.far_id.far_id == pFar.getFARId.far_id)).2 =
      s.fars_counter - 1 := by
    rw [r2, herase, List.length_eraseIdx, hlen, if_pos hi]
  rw [removeFAR_of_some hs, if_neg (by omega), if_neg (by omega), hseid,
    BPFMap.update_EXIST_of_some hs]
  refine ⟨rfl, _, BPFMap.put_same _ _ _, rfl, r1, ?_, herase.symm⟩
  show List.take (s.fars_counter - 1) _ = _
  rw [← hr2, r3, herase]

/-! ## The properties of the session manager -/

/-- C1. Duplicate create fails. For every sessions map `m` and session record `s`:
if the key `s.seid` is present in `m`, `createSession m s` throws ("Cannot create
session") and leaves the map, hence the value stored under `s.seid`, as it was;
`createSession` called twice in a row throws on the second call, whose map is
the one the first call left; and when the first call succeeded that map holds
under `s.seid` the record `s` the first call wrote. -/
theorem createSession_duplicate_fails (m : BPFMap) (s : pfcp_session_t_) :
    (m s.seid ≠ none → createSession m s = (.error .cannot_create_session, m)) ∧
    createSession (createSession m s).2 s =
      (.error .cannot_create_session, (createSession m s).2) ∧
    ((createSession m s).1 = .ok () →
      (createSession (createSession m s).2 s).2 s.seid = some s) := by
  cases h : m s.seid with
  | none =>
    by_cases hroom : m.size < m.max_entries
    · have h1 := createSession_of_none h hroom
      have h2 : createSession (m.insert s.seid s) s =
          (.error .cannot_create_session, m.insert s.seid s) :=
        createSession_of_some (BPFMap.insert_same m s.seid s)
      simp [h1, h2, BPFMap.insert_same]
    · have h1 := createSession_of_full h hroom
      simp [h1]
  | some v =>
    have h1 : createSession m s = (.error .cannot_create_session, m) := createSession_of_some h
    simp [h1]

/-- Instance of `createSession_duplicate_fails`: session 1 created in the empty
map, then created again. -/
theorem createSession_duplicate_fails_witness :
    Example.created (Example.fresh 1).seid ≠ none ∧
    createSession Example.created (Example.fresh 1) =
      (.error .cannot_create_session, Example.created) ∧
    (createSession BPFMap.empty (Example.fresh 1)).1 = .ok () ∧
    (createSession (createSession BPFMap.empty (Example.fresh 1)).2 (Example.fresh 1)).2 1
      = some (Example.fresh 1) :=
  have h : Example.created (Example.fresh 1).seid ≠ none := by decide
  have h1 : (createSession BPFMap.empty (Example.fresh 1)).1 = .ok () := by decide
  ⟨h, (createSession_duplicate_fails Example.created (Example.fresh 1)).1 h, h1,
    (createSession_duplicate_fails BPFMap.empty (Example.fresh 1)).2.2 h1⟩

/-- C2, as amended. Add appends at the counter. For every sessions map in which
`seid` is stored with a record `s` whose PDR array has its declared size and
whose PDR counter is below that size, `addPDR` succeeds, returning no value
(the method is `void`; the insertion index is the local `index` it logs), and
the record stored afterwards has the rule's record at the index equal to the
old `pdrs_counter`, `pdrs_counter` larger by exactly one, and every entry at an
index below the old `pdrs_counter` as before. No id is compared: when an entry
of the valid prefix already has the rule's id the add succeeds all the same,
and the new valid prefix then has that id at two different indices. The same
for `addFAR` with `fars` and `fars_counter`. -/
theorem add_appends_at_counter (P F : Nat) (m : BPFMap) (session : pfcp_session_t_)
    (seid : Nat) (s : pfcp_session_t_) (hs : m seid = some s) :
    (∀ pPdr : PacketDetectionRules, s.pdrs.length = P → s.pdrs_counter < P →
      (addPDR P m session seid pPdr).1 = .ok () ∧
      ∃ s', (addPDR P m session seid pPdr).2 seid = some s' ∧
        s'.pdrs[s.pdrs_counter]? = some pPdr.getData ∧
        s'.pdrs_counter = s.pdrs_counter + 1 ∧
        (∀ i, i < s.pdrs_counter → s'.pdrs[i]? = s.pdrs[i]?) ∧
        (∀ i x, i < s.pdrs_counter → s.pdrs[i]? = some x → x.pdr_id = pPdr.getPdrId →
          i < s'.pdrs_counter ∧ s.pdrs_counter < s'.pdrs_counter ∧ i ≠ s.pdrs_counter ∧
          (s'.pdrs[i]?).map (·.pdr_id) = some pPdr.getPdrId ∧
          (s'.pdrs[s.pdrs_counter]?).map (·.pdr_id) = some pPdr.getPdrId)) ∧
    (∀ pFar : ForwardingActionRules, s.fars.length = F → s.fars_counter < F →
      (addFAR F m session seid pFar).1 = .ok () ∧
      ∃ s', (addFAR F m session seid pFar).2 seid = some s' ∧
        s'.fars[s.fars_counter]? = some pFar.getData ∧
        s'.fars_counter = s.fars_counter + 1 ∧
        (∀ i, i < s.fars_counter → s'.fars[i]? = s.fars[i]?) ∧
        (∀ i x, i < s.fars_counter → s.fars[i]? = some x → x.far_id = pFar.getFARId →
          i < s'.fars_counter ∧ s.fars_counter < s'.fars_counter ∧ i ≠ s.fars_counter ∧
          (s'.fars[i]?).map (·.far_id) = some pFar.getFARId ∧
          (s'.fars[s.fars_counter]?).map (·.far_id) = some pFar.getFARId)) := by
  constructor
  · intro pPdr hlen hlt
    rw [addPDR_of_some P hs, if_neg (by omega)]
    refine ⟨rfl, _, BPFMap.put_same _ _ _, ?_, rfl, ?_, ?_⟩
    · simp [List.getElem?_set, show s.pdrs_counter < s.pdrs.length by omega]
    · intro i hi
      simp [List.getElem?_set, show ¬ s.pdrs_counter = i by omega]
    · intro i x hi hx hid
      refine ⟨by simp; omega, by simp, by omega, ?_, ?_⟩
      · simp [List.getElem?_set, show ¬ s.pdrs_counter = i by omega, hx, hid]
      · simp [List.getElem?_set, show s.pdrs_counter < s.pdrs.length by omega,
          PacketDetectionRules.getData, PacketDetectionRules.getPdrId]
  · intro pFar hlen hlt
    rw [addFAR_of_some F hs, if_neg (by omega)]
    refine ⟨rfl, _, BPFMap.put_same _ _ _, ?_, rfl, ?_, ?_⟩
    · simp [List.getElem?_set, show s.fars_counter < s.fars.length by omega]
    · intro i hi
      simp [List.getElem?_set, show ¬ s.fars_counter = i by omega]
    · intro i x hi hx hid
      refine ⟨by simp; omega, by simp, by omega, ?_, ?_⟩
      · simp [List.getElem?_set, show ¬ s.fars_counter = i by omega, hx, hid]
      · simp [List.getElem?_set, show s.fars_counter < s.fars.length by omega,
          ForwardingActionRules.getData, ForwardingActionRules.getFARId]

/-- Instance of `add_appends_at_counter` with entries already in the valid prefix:
a second PDR of id 10 added to session 1 holding PDR 10, and a second FAR of
id 7 added to session 1 holding the FARs 7 and 8. The new record lands at the
old counter, the counter grows by one, the entries below stay, and the id is
then at two indices. -/
theorem add_appends_at_counter_witness :
    Example.after_add_10 1 = some Example.one_pdr ∧
    (addPDR 3 Example.after_add_10 Example.stack 1 (Example.pdr 10 999)).1 = .ok () ∧
    (∃ s', (addPDR 3 Example.after_add_10 Example.stack 1 (Example.pdr 10 999)).2 1 = some s' ∧
      s'.pdrs[1]? = some ⟨⟨10⟩, 999⟩ ∧ s'.pdrs_counter = 2 ∧
      s'.pdrs[0]? = some ⟨⟨10⟩, 100⟩ ∧
      (s'.pdrs[0]?).map (·.pdr_id) = some ⟨10⟩ ∧ (s'.pdrs[1]?).map (·.pdr_id) = some ⟨10⟩) ∧
    Example.after_add_fars 1 = some Example.two_fars ∧
    (addFAR 3 Example.after_add_fars Example.stack 1 (Example.far 7 777)).1 = .ok () ∧
    (∃ s', (addFAR 3 Example.after_add_fars Example.stack 1 (Example.far 7 777)).2 1 = some s' ∧
      s'.fars[2]? = some ⟨⟨7⟩, 777⟩ ∧ s'.fars_counter = 3 ∧
      s'.fars[0]? = some ⟨⟨7⟩, 70⟩ ∧ s'.fars[1]? = some ⟨⟨8⟩, 80⟩ ∧
      (s'.fars[0]?).map (·.far_id) = some ⟨7⟩ ∧ (s'.fars[2]?).map (·.far_id) = some ⟨7⟩) :=
  have hp := (add_appends_at_counter 3 3 Example.after_add_10 Example.stack 1 Example.one_pdr
    (by decide)).1 (Example.pdr 10 999) (by decide) (by decide)
  have hf := (add_appends_at_counter 3 3 Example.after_add_fars Example.stack 1
    Example.two_fars (by decide)).2 (Example.far 7 777) (by decide) (by decide)
  ⟨by decide, hp.1,
    (by
      obtain ⟨s', h1, h2, h3, h4, h5⟩ := hp.2
      have h6 := h5 0 ⟨⟨10⟩, 100⟩ (by decide) (by decide) (by decide)
      exact ⟨s', h1, h2, h3, h4 0 (by decide), h6.2.2.2.1, h6.2.2.2.2⟩),
    by decide, hf.1,
    (by
      obtain ⟨s', h1, h2, h3, h4, h5⟩ := hf.2
      have h6 := h5 0 ⟨⟨7⟩, 70⟩ (by decide) (by decide) (by decide)
      exact ⟨s', h1, h2, h3, h4 0 (by decide), h4 1 (by decide), h6.2.2.2.1, h6.2.2.2.2⟩)⟩

/-- Counterexample to C2 as stated. The PDR 10 is inserted at index 0 of the fresh
session 1 and the PDR 20 then at index 1, and both calls return the same value:
`addPDR` is `void`, so no reading of what it returns gives the insertion index
0 for the first call and 1 for the second. The same for `addFAR` with the FARs
7 and 8. -/
theorem add_returns_no_index_counterexample :
    (Example.created 1).map (·.pdrs_counter) = some 0 ∧
    (Example.after_add_10 1).map (fun s => (s.pdrs_counter, s.pdrs[0]?)) =
      some (1, some ⟨⟨10⟩, 100⟩) ∧
    (Example.after_add_20 1).map (fun s => (s.pdrs_counter, s.pdrs[1]?)) =
      some (2, some ⟨⟨20⟩, 200⟩) ∧
    (addPDR 3 Example.created Example.stack 1 (Example.pdr 10 100)).1 =
      (addPDR 3 Example.after_add_10 Example.stack 1 (Example.pdr 20 200)).1 ∧
    (¬ ∃ index_of : Except runtime_error Unit → Nat,
      index_of (addPDR 3 Example.created Example.stack 1 (Example.pdr 10 100)).1 = 0 ∧
      index_of (addPDR 3 Example.after_add_10 Example.stack 1 (Example.pdr 20 200)).1 = 1) ∧
    (addFAR 3 Example.created Example.stack 1 (Example.far 7 70)).1 =
      (addFAR 3 (addFAR 3 Example.created Example.stack 1 (Example.far 7 70)).2
        Example.stack 1 (Example.far 8 80)).1 ∧
    (¬ ∃ index_of : Except runtime_error Unit → Nat,
      index_of (addFAR 3 Example.created Example.stack 1 (Example.far 7 70)).1 = 0 ∧
      index_of (addFAR 3 (addFAR 3 Example.created Example.stack 1 (Example.far 7 70)).2
        Example.stack 1 (Example.far 8 80)).1 = 1) := by
  have hp : (addPDR 3 Example.created Example.stack 1 (Example.pdr 10 100)).1 =
      (addPDR 3 Example.after_add_10 Example.stack 1 (Example.pdr 20 200)).1 := by decide
  have hf : (addFAR 3 Example.created Example.stack 1 (Example.far 7 70)).1 =
      (addFAR 3 (addFAR 3 Example.created Example.stack 1 (Example.far 7 70)).2
        Example.stack 1 (Example.far 8 80)).1 := by decide
  refine ⟨by decide, by decide, by decide, hp, ?_, hf, ?_⟩
  · rintro ⟨index_of, h0, h1⟩
    rw [hp, h1] at h0
    exact absurd h0 (by decide)
  · rintro ⟨index_of, h0, h1⟩
    rw [hf, h1] at h0
    exact absurd h0 (by decide)

/-- C3. Capacity bound. For every stored session whose `pdrs_counter` equals the
PDR capacity, `addPDR` throws ("The PDR cannot be added in the session") and the
map, hence the stored record and its counter, is as it was. Starting from a
stored session with `pdrs_counter = 0` whose array has the declared size `P`,
`P + 1` successive `addPDR` calls succeed `P` times and throw on the last call,
and the counter stored afterwards is `P`. The same for `addFAR` with the FAR
capacity. -/
theorem add_capacity_bound (P F : Nat) (m : BPFMap) (session : pfcp_session_t_)
    (seid : Nat) (s : pfcp_session_t_) (hs : m seid = some s) :
    (∀ pPdr, s.pdrs_counter = P →
      addPDR P m session seid pPdr = (.error .pdr_cannot_be_added, m)) ∧
    (∀ rs : List PacketDetectionRules, s.pdrs.length = P → s.pdrs_counter = 0 →
      rs.length = P + 1 →
      (addPDR_calls P session seid m rs).1 =
        List.replicate P (.ok ()) ++ [.error .pdr_cannot_be_added] ∧
      ((addPDR_calls P session seid m rs).2 seid).map (·.pdrs_counter) = some P) ∧
    (∀ pFar, s.fars_counter = F →
      addFAR F m session seid pFar = (.error .far_cannot_be_added, m)) ∧
    (∀ rs : List ForwardingActionRules, s.fars.length = F → s.fars_counter = 0 →
      rs.length = F + 1 →
      (addFAR_calls F session seid m rs).1 =
        List.replicate F (.ok ()) ++ [.error .far_cannot_be_added] ∧
      ((addFAR_calls F session seid m rs).2 seid).map (·.fars_counter) = some F) := by
  refine ⟨?_, ?_, ?_, ?_⟩
  · intro pPdr hc
    rw [addPDR_of_some P hs, if_pos (by omega)]
  · intro rs hlen hc hrs
    obtain ⟨xs, y, rfl, hxs⟩ := split_last rs P hrs
    obtain ⟨h1, s', h2, h3, _⟩ :=
      addPDR_calls_below_capacity P session seid xs m s hs hlen (by omega)
    have hlast := addPDR_of_some P h2 session y
    rw [if_pos (by omega)] at hlast
    rw [addPDR_calls_append]
    simp [addPDR_calls, hlast, h1, hxs, h2, h3, hc]
  · intro pFar hc
    rw [addFAR_of_some F hs, if_pos (by omega)]
  · intro rs hlen hc hrs
    obtain ⟨xs, y, rfl, hxs⟩ := split_last rs F hrs
    obtain ⟨h1, s', h2, h3, _⟩ :=
      addFAR_calls_below_capacity F session seid xs m s hs hlen (by omega)
    have hlast := addFAR_of_some F h2 session y
    rw [if_pos (by omega)] at hlast
    rw [addFAR_calls_append]
    simp [addFAR_calls, hlast, h1, hxs, h2, h3, hc]

/-- Instance of `add_capacity_bound`: four adds into the fresh session 1 of
capacity three. -/
theorem add_capacity_bound_witness :
    Example.created 1 = some (Example.fresh 1) ∧
    (addPDR_calls 3 Example.stack 1 Example.created
        [Example.pdr 10 100, Example.pdr 20 200, Example.pdr 30 300, Example.pdr 40 400]).1 =
      [.ok (), .ok (), .ok (), .error .pdr_cannot_be_added] ∧
    ((addPDR_calls 3 Example.stack 1 Example.created
        [Example.pdr 10 100, Example.pdr 20 200, Example.pdr 30 300, Example.pdr 40 400]).2
      1).map (·.pdrs_counter) = some 3 ∧
    (addFAR_calls 3 Example.stack 1 Example.created
        [Example.far 1 10, Example.far 2 20, Example.far 3 30, Example.far 4 40]).1 =
      [.ok (), .ok (), .ok (), .error .far_cannot_be_added] :=
  have h := add_capacity_bound 3 3 Example.created Example.stack 1 (Example.fresh 1)
    (by decide)
  ⟨by decide,
    (h.2.1 [Example.pdr 10 100, Example.pdr 20 200, Example.pdr 30 300, Example.pdr 40 400]
      (by decide) (by decide) (by decide)).1,
    (h.2.1 [Example.pdr 10 100, Example.pdr 20 200, Example.pdr 30 300, Example.pdr 40 400]
      (by decide) (by decide) (by decide)).2,
    (h.2.2.2 [Example.far 1 10, Example.far 2 20, Example.far 3 30, Example.far 4 40]
      (by decide) (by decide) (by decide)).1⟩

/-- C4. Remove with a duplicated id, evaluated. Session 1 of capacity three receives
the PDRs with ids 1, 1, 2; all three adds succeed. `removePDR` of id 1 then
succeeds and stores `pdrs_counter = 2` with the valid prefix `[id 2, id 1]`: the
counter went down by one although two entries matched, an entry with the
removed id is still in the valid prefix and `lookupPDR` finds it, whereas the
old valid prefix without the entries of id 1 is `[id 2]`. With the FARs of ids
1, 2, 1 `removeFAR` of id 1 stores `fars_counter = 2` with the valid prefix
`[id 2, id 2]`: the entry of id 2 is now there twice. -/
theorem remove_with_duplicate_ids_trace :
    (addPDR_calls 3 Example.stack 1 Example.created
      [Example.pdr 1 100, Example.pdr 1 300, Example.pdr 2 200]).1 =
        [.ok (), .ok (), .ok ()] ∧
    (Example.pdr_ids_1_1_2 1).map (fun s => (s.pdrs_counter, s.pdrs.take s.pdrs_counter)) =
      some (3, [⟨⟨1⟩, 100⟩, ⟨⟨1⟩, 300⟩, ⟨⟨2⟩, 200⟩]) ∧
    (removePDR Example.pdr_ids_1_1_2 Example.stack 1 (Example.pdr 1 0)).1 = .ok () ∧
    ((removePDR Example.pdr_ids_1_1_2 Example.stack 1 (Example.pdr 1 0)).2 1).map
      (fun s => (s.pdrs_counter, s.pdrs.take s.pdrs_counter)) =
      some (2, [⟨⟨2⟩, 200⟩, ⟨⟨1⟩, 300⟩]) ∧
    (lookupPDR (removePDR Example.pdr_ids_1_1_2 Example.stack 1 (Example.pdr 1 0)).2
      Example.stack 1 ⟨1⟩).1 = some (Example.pdr 1 300) ∧
    (Example.pdr_ids_1_1_2 1).map (fun s => (s.pdrs.take s.pdrs_counter).filter
      (fun pdr => !(pdr.pdr_id.rule_id == 1))) = some [⟨⟨2⟩, 200⟩] ∧
    (Example.far_ids_1_2_1 1).map (fun s => (s.fars_counter, s.fars.take s.fars_counter)) =
      some (3, [⟨⟨1⟩, 100⟩, ⟨⟨2⟩, 200⟩, ⟨⟨1⟩, 300⟩]) ∧
    (removeFAR Example.far_ids_1_2_1 Example.stack 1 (Example.far 1 0)).1 = .ok () ∧
    ((removeFAR Example.far_ids_1_2_1 Example.stack 1 (Example.far 1 0)).2 1).map
      (fun s => (s.fars_counter, s.fars.take s.fars_counter)) =
      some (2, [⟨⟨2⟩, 200⟩, ⟨⟨2⟩, 200⟩]) := by
  decide

/-- C5. Remove compacts. For every session stored under its own `seid` whose counter
is within the array and whose valid PDR prefix has exactly one entry with the
target id, at index `i`: `removePDR` succeeds, `pdrs_counter` becomes the old
counter minus one, the new valid prefix is the old one with index `i` erased
(entries before `i` as before, entries after `i` one place to the left, order
kept), and a following `lookupPDR` of the removed id returns the empty pointer.
The same for `removeFAR` and `lookupFAR`. -/
theorem remove_single_match (m : BPFMap) (session : pfcp_session_t_) (seid : Nat)
    (s : pfcp_session_t_) (hs : m seid = some s) (hseid : s.seid = seid) :
    (∀ (pPdr : PacketDetectionRules) (i : Nat) (x : pfcp_pdr_t_),
      s.pdrs_counter ≤ s.pdrs.length → i < s.pdrs_counter → s.pdrs[i]? = some x →
      x.pdr_id.rule_id = pPdr.getPdrId.rule_id →
      (∀ j y, j < s.pdrs_counter → s.pdrs[j]? = some y →
        y.pdr_id.rule_id = pPdr.getPdrId.rule_id → j = i) →
      (removePDR m session seid pPdr).1 = .ok () ∧
      ∃ s', (removePDR m session seid pPdr).2 seid = some s' ∧
        s'.pdrs_counter = s.pdrs_counter - 1 ∧
        s'.pdrs.take s'.pdrs_counter = (s.pdrs.take s.pdrs_counter).eraseIdx i ∧
        (∀ j, j < i → s'.pdrs[j]? = s.pdrs[j]?) ∧
        (∀ j, i ≤ j → j < s.pdrs_counter - 1 → s'.pdrs[j]? = s.pdrs[j + 1]?) ∧
        ∀ session', (lookupPDR (removePDR m session seid pPdr).2 session' seid
          pPdr.getPdrId).1 = none) ∧
    (∀ (pFar : ForwardingActionRules) (i : Nat) (x : pfcp_far_t_),
      s.fars_counter ≤ s.fars.length → i < s.fars_counter → s.fars[i]? = some x →
      x.far_id.far_id = pFar.getFARId.far_id →
      (∀ j y, j < s.fars_counter → s.fars[j]? = some y →
        y.far_id.far_id = pFar.getFARId.far_id → j = i) →
      (removeFAR m session seid pFar).1 = .ok () ∧
      ∃ s', (removeFAR m session seid pFar).2 seid = some s' ∧
        s'.fars_counter = s.fars_counter - 1 ∧
        s'.fars.take s'.fars_counter = (s.fars.take s.fars_counter).eraseIdx i ∧
        (∀ j, j < i → s'.fars[j]? = s.fars[j]?) ∧
        (∀ j, i ≤ j → j < s.fars_counter - 1 → s'.fars[j]? = s.fars[j + 1]?) ∧
        ∀ session', (lookupFAR (removeFAR m session seid pFar).2 session' seid
          pFar.getFARId).1 = none) := by
  constructor
  · intro pPdr i x hc hi hx hid hu
    obtain ⟨hok, s', hs', hcnt, hlen, htake, hfilter⟩ :=
      removePDR_unique hs hseid session pPdr i x hc hi hx hid hu
    have hget : ∀ j, j < s.pdrs_counter - 1 →
        s'.pdrs[j]? = ((s.pdrs.take s.pdrs_counter).eraseIdx i)[j]? := by
      intro j hj
      rw [← htake, hcnt, List.getElem?_take_of_lt hj]
    refine ⟨hok, s', hs', hcnt, htake, ?_, ?_, ?_⟩
    · intro j hj
      rw [hget j (by omega), List.getElem?_eraseIdx, if_pos hj,
        List.getElem?_take_of_lt (by omega)]
    · intro j hij hj
      rw [hget j hj, List.getElem?_eraseIdx, if_neg (by omega),
        List.getElem?_take_of_lt (by omega)]
    · intro session'
      rw [lookupPDR_of_some hs' (by omega), htake, hfilter]
      simp
  · intro pFar i x hc hi hx hid hu
    obtain ⟨hok, s', hs', hcnt, hlen, htake, hfilter⟩ :=
      removeFAR_unique hs hseid session pFar i x hc hi hx hid hu
    have hget : ∀ j, j < s.fars_counter - 1 →
        s'.fars[j]? = ((s.fars.take s.fars_counter).eraseIdx i)[j]? := by
      intro j hj
      rw [← htake, hcnt, List.getElem?_take_of_lt hj]
    refine ⟨hok, s', hs', hcnt, htake, ?_, ?_, ?_⟩
    · intro j hj
      rw [hget j (by omega), List.getElem?_eraseIdx, if_pos hj,
        List.getElem?_take_of_lt (by omega)]
    · intro j hij hj
      rw [hget j hj, List.getElem?_eraseIdx, if_neg (by omega),
        List.getElem?_take_of_lt (by omega)]
    · intro session'
      rw [lookupFAR_of_some hs' (by omega), htake, hfilter]
      simp

/-- Instance of `remove_single_match`, the end-to-end scenario: create session 1,
add PDR 10 (index 0), add PDR 20 (index 1), remove PDR 10; then `pdrs_counter`
is 1 with PDR 20 at index 0 and the lookup of id 10 is empty. Also FAR 8
removed from the FARs 7, 8. -/
theorem remove_single_match_witness :
    (createSession BPFMap.empty (Example.fresh 1)).1 = .ok () ∧
    (addPDR 3 Example.created Example.stack 1 (Example.pdr 10 100)).1 = .ok () ∧
    (Example.after_add_10 1).map (fun s => (s.pdrs_counter, s.pdrs[0]?)) =
      some (1, some ⟨⟨10⟩, 100⟩) ∧
    (addPDR 3 Example.after_add_10 Example.stack 1 (Example.pdr 20 200)).1 = .ok () ∧
    (Example.after_add_20 1).map (fun s => (s.pdrs_counter, s.pdrs[1]?)) =
      some (2, some ⟨⟨20⟩, 200⟩) ∧
    (removePDR Example.after_add_20 Example.stack 1 (Example.pdr 10 0)).1 = .ok () ∧
    ((removePDR Example.after_add_20 Example.stack 1 (Example.pdr 10 0)).2 1).map
      (fun s => (s.pdrs_counter, s.pdrs.take s.pdrs_counter)) = some (1, [⟨⟨20⟩, 200⟩]) ∧
    (lookupPDR (removePDR Example.after_add_20 Example.stack 1 (Example.pdr 10 0)).2
      Example.stack 1 ⟨10⟩).1 = none ∧
    (removeFAR Example.after_add_fars Example.stack 1 (Example.far 8 0)).1 = .ok () :=
  have h := remove_single_match Example.after_add_20 Example.stack 1 Example.two_pdrs
    (by decide) (by decide)
  have hp := h.1 (Example.pdr 10 0) 0 ⟨⟨10⟩, 100⟩ (by decide) (by decide) (by decide)
    (by decide) (by
      intro j y hj hy hid
      match j, hj with
      | 0, _ => rfl
      | 1, _ =>
        have hy' : y = ⟨⟨20⟩, 200⟩ := by
          simpa [Example.two_pdrs] using hy.symm
        subst hy'
        exact absurd hid (by decide))
  have hf := (remove_single_match Example.after_add_fars Example.stack 1 Example.two_fars
    (by decide) (by decide)).2 (Example.far 8 0) 1 ⟨⟨8⟩, 80⟩ (by decide) (by decide)
    (by decide) (by decide) (by
      intro j y hj hy hid
      match j, hj with
      | 1, _ => rfl
      | 0, _ =>
        have hy' : y = ⟨⟨7⟩, 70⟩ := by
          simpa [Example.two_fars] using hy.symm
        subst hy'
        exact absurd hid (by decide))
  ⟨by decide, by decide, by decide, by decide, by decide, hp.1, by decide,
    hp.2.choose_spec.2.2.2.2.2 Example.stack, hf.1⟩

/-- C6. Remove of what is not there. For every stored session: `removePDR` throws
when `pdrs_counter` is 0 ("There is not any element in PDRs array…") and, when
the counter is within the array, when no entry of the valid prefix has the
target id ("PDR not found"); in both cases the map returned is the map before
the call, so the stored record, its arrays and both counters are as they
were. The same for `removeFAR`, whose second message is "PDR not found" too. -/
theorem remove_not_found (m : BPFMap) (session : pfcp_session_t_) (seid : Nat)
    (s : pfcp_session_t_) (hs : m seid = some s) :
    (∀ pPdr : PacketDetectionRules,
      (s.pdrs_counter = 0 →
        removePDR m session seid pPdr = (.error .no_pdr_to_delete, m)) ∧
      (s.pdrs_counter ≠ 0 → s.pdrs_counter ≤ s.pdrs.length →
        (∀ x ∈ s.pdrs.take s.pdrs_counter, x.pdr_id.rule_id ≠ pPdr.getPdrId.rule_id) →
        removePDR m session seid pPdr = (.error .pdr_not_found, m))) ∧
    (∀ pFar : ForwardingActionRules,
      (s.fars_counter = 0 →
        removeFAR m session seid pFar = (.error .no_far_to_delete, m)) ∧
      (s.fars_counter ≠ 0 → s.fars_counter ≤ s.fars.length →
        (∀ x ∈ s.fars.take s.fars_counter, x.far_id.far_id ≠ pFar.getFARId.far_id) →
        removeFAR m session seid pFar = (.error .pdr_not_found, m))) := by
  constructor
  · intro pPdr
    rw [removePDR_of_some hs]
    refine ⟨fun h0 => by rw [if_pos h0], fun h0 hc hall => ?_⟩
    rw [if_neg h0, std.remove_if_of_none _ _ _ hc (by simpa using hall)]
    simp
  · intro pFar
    rw [removeFAR_of_some hs]
    refine ⟨fun h0 => by rw [if_pos h0], fun h0 hc hall => ?_⟩
    rw [if_neg h0, std.remove_if_of_none _ _ _ hc (by simpa using hall)]
    simp

/-- Instance of `remove_not_found`: removals from the fresh session 1 and of the
absent id 99. -/
theorem remove_not_found_witness :
    Example.created 1 = some (Example.fresh 1) ∧
    removePDR Example.created Example.stack 1 (Example.pdr 10 0) =
      (.error .no_pdr_to_delete, Example.created) ∧
    removeFAR Example.created Example.stack 1 (Example.far 7 0) =
      (.error .no_far_to_delete, Example.created) ∧
    Example.after_add_20 1 = some Example.two_pdrs ∧
    removePDR Example.after_add_20 Example.stack 1 (Example.pdr 99 0) =
      (.error .pdr_not_found, Example.after_add_20) ∧
    removeFAR Example.after_add_fars Example.stack 1 (Example.far 99 0) =
      (.error .pdr_not_found, Example.after_add_fars) :=
  have h0 := remove_not_found Example.created Example.stack 1 (Example.fresh 1) (by decide)
  have h2 := remove_not_found Example.after_add_20 Example.stack 1 Example.two_pdrs
    (by decide)
  have h3 := remove_not_found Example.after_add_fars Example.stack 1 Example.two_fars
    (by decide)
  ⟨by decide, (h0.1 (Example.pdr 10 0)).1 (by decide), (h0.2 (Example.far 7 0)).1 (by decide),
    by decide, (h2.1 (Example.pdr 99 0)).2 (by decide) (by decide) (by decide),
    (h3.2 (Example.far 99 0)).2 (by decide) (by decide) (by decide)⟩

/-- C7. Lookup is a find-first over the valid prefix. For every stored session whose
counter is within the array and every id, `lookupPDR` returns the value object
of the first entry of `pdrs[0, pdrs_counter)` with that id: when index `i` of the
prefix has the id and no lower index has it, the result is the object made
from entry `i`; when the counter is 0 or no entry of the prefix has the id, the
result is the empty pointer; and a session that agrees with this one on the
counter and on the entries below it gives the same result, whatever lies at
or after the counter. The same for `lookupFAR`. -/
theorem lookup_is_find_first (m : BPFMap) (session : pfcp_session_t_) (seid : Nat)
    (s : pfcp_session_t_) (hs : m seid = some s) :
    (∀ pdrId : pdr_id_t_, s.pdrs_counter ≤ s.pdrs.length →
      (lookupPDR m session seid pdrId).1 =
        ((s.pdrs.take s.pdrs_counter).find?
          (fun pdr => pdr.pdr_id.rule_id == pdrId.rule_id)).map RulesUtilities.createPDR ∧
      (∀ i x, i < s.pdrs_counter → s.pdrs[i]? = some x →
        x.pdr_id.rule_id = pdrId.rule_id →
        (∀ j y, j < i → s.pdrs[j]? = some y → y.pdr_id.rule_id ≠ pdrId.rule_id) →
        (lookupPDR m session seid pdrId).1 = some (RulesUtilities.createPDR x)) ∧
      ((s.pdrs_counter = 0 ∨ ∀ i x, i < s.pdrs_counter → s.pdrs[i]? = some x →
          x.pdr_id.rule_id ≠ pdrId.rule_id) →
        (lookupPDR m session seid pdrId).1 = none) ∧
      (∀ (m' : BPFMap) (session' s' : pfcp_session_t_), m' seid = some s' →
        s'.pdrs_counter = s.pdrs_counter → s'.pdrs_counter ≤ s'.pdrs.length →
        (∀ i, i < s.pdrs_counter → s'.pdrs[i]? = s.pdrs[i]?) →
        (lookupPDR m' session' seid pdrId).1 = (lookupPDR m session seid pdrId).1)) ∧
    (∀ farId : far_id_t_, s.fars_counter ≤ s.fars.length →
      (lookupFAR m session seid farId).1 =
        ((s.fars.take s.fars_counter).find?
          (fun far => far.far_id.far_id == farId.far_id)).map RulesUtilities.createFAR ∧
      (∀ i x, i < s.fars_counter → s.fars[i]? = some x →
        x.far_id.far_id = farId.far_id →
        (∀ j y, j < i → s.fars[j]? = some y → y.far_id.far_id ≠ farId.far_id) →
        (lookupFAR m session seid farId).1 = some (RulesUtilities.createFAR x)) ∧
      ((s.fars_counter = 0 ∨ ∀ i x, i < s.fars_counter → s.fars[i]? = some x →
          x.far_id.far_id ≠ farId.far_id) →
        (lookupFAR m session seid farId).1 = none) ∧
      (∀ (m' : BPFMap) (session' s' : pfcp_session_t_), m' seid = some s' →
        s'.fars_counter = s.fars_counter → s'.fars_counter ≤ s'.fars.length →
        (∀ i, i < s.fars_counter → s'.fars[i]? = s.fars[i]?) →
        (lookupFAR m' session' seid farId).1 = (lookupFAR m session seid farId).1)) := by
  constructor
  · intro pdrId hc
    have hfst := lookupPDR_of_some hs hc session pdrId
    refine ⟨by rw [hfst], ?_, ?_, ?_⟩
    · intro i x hi hx hid hfirst
      have hidx := std.findIdx_eq_of_first
        (fun pdr : pfcp_pdr_t_ => pdr.pdr_id.rule_id == pdrId.rule_id)
        (s.pdrs.take s.pdrs_counter) i x
        (by rw [List.getElem?_take_of_lt hi]; exact hx) (by simpa using hid) (by
          intro j y hj hy
          rw [List.getElem?_take_of_lt (by omega)] at hy
          simpa using hfirst j y hj hy)
      rw [hfst, std.find?_eq_getElem?_findIdx, hidx, List.getElem?_take_of_lt hi, hx]
      rfl
    · intro hnone
      rw [hfst]
      have : (s.pdrs.take s.pdrs_counter).find?
          (fun pdr => pdr.pdr_id.rule_id == pdrId.rule_id) = none := by
        rw [List.find?_eq_none]
        intro x hx
        rcases hnone with h0 | hall
        · simp [h0] at hx
        · obtain ⟨i, hi, hix⟩ := List.getElem_of_mem hx
          have hic : i < s.pdrs_counter := by
            have := List.length_take_le s.pdrs_counter s.pdrs; omega
          have := hall i x hic (by
            rw [← List.getElem?_take_of_lt hic, List.getElem?_eq_getElem hi, hix])
          simpa using this
      rw [this]; rfl
    · intro m' session' s' hs' hcnt hc' hsame
      have htake : s'.pdrs.take s'.pdrs_counter = s.pdrs.take s.pdrs_counter := by
        apply List.ext_getElem?
        intro i
        rw [hcnt]
        by_cases hi : i < s.pdrs_counter
        · rw [List.getElem?_take_of_lt hi, List.getElem?_take_of_lt hi, hsame i hi]
        · rw [List.getElem?_eq_none_iff.2 (by simp; omega),
            List.getElem?_eq_none_iff.2 (by simp; omega)]
      rw [lookupPDR_of_some hs' hc', hfst, htake]
  · intro farId hc
    have hfst := lookupFAR_of_some hs hc session farId
    refine ⟨by rw [hfst], ?_, ?_, ?_⟩
    · intro i x hi hx hid hfirst
      have hidx := std.findIdx_eq_of_first
        (fun far : pfcp_far_t_ => far.far_id.far_id == farId.far_id)
        (s.fars.take s.fars_counter) i x
        (by rw [List.getElem?_take_of_lt hi]; exact hx) (by simpa using hid) (by
          intro j y hj hy
          rw [List.getElem?_take_of_lt (by omega)] at hy
          simpa using hfirst j y hj hy)
      rw [hfst, std.find?_eq_getElem?_findIdx, hidx, List.getElem?_take_of_lt hi, hx]
      rfl
    · intro hnone
      rw [hfst]
      have : (s.fars.take s.fars_counter).find?
          (fun far => far.far_id.far_id == farId.far_id) = none := by
        rw [List.find?_eq_none]
        intro x hx
        rcases hnone with h0 | hall
        · simp [h0] at hx
        · obtain ⟨i, hi, hix⟩ := List.getElem_of_mem hx
          have hic : i < s.fars_counter := by
            have := List.length_take_le s.fars_counter s.fars; omega
          have := hall i x hic (by
            rw [← List.getElem?_take_of_lt hic, List.getElem?_eq_getElem hi, hix])
          simpa using this
      rw [this]; rfl
    · intro m' session' s' hs' hcnt hc' hsame
      have htake : s'.fars.take s'.fars_counter = s.fars.take s.fars_counter := by
        apply List.ext_getElem?
        intro i
        rw [hcnt]
        by_cases hi : i < s.fars_counter
        · rw [List.getElem?_take_of_lt hi, List.getElem?_take_of_lt hi, hsame i hi]
        · rw [List.getElem?_eq_none_iff.2 (by simp; omega),
            List.getElem?_eq_none_iff.2 (by simp; omega)]
      rw [lookupFAR_of_some hs' hc', hfst, htake]

/-- Instance of `lookup_is_find_first`: lookups in session 1 holding the PDRs 10,
20 and the FARs 7, 8. -/
theorem lookup_is_find_first_witness :
    Example.after_add_20 1 = some Example.two_pdrs ∧
    (lookupPDR Example.after_add_20 Example.stack 1 ⟨20⟩).1 = some (Example.pdr 20 200) ∧
    (lookupPDR Example.after_add_20 Example.stack 1 ⟨99⟩).1 = none ∧
    (lookupFAR Example.after_add_fars Example.stack 1 ⟨7⟩).1 = some (Example.far 7 70) :=
  have hp := (lookup_is_find_first Example.after_add_20 Example.stack 1 Example.two_pdrs
    (by decide)).1
  have hf := (lookup_is_find_first Example.after_add_fars Example.stack 1 Example.two_fars
    (by decide)).2
  ⟨by decide,
    (hp ⟨20⟩ (by decide)).2.1 1 ⟨⟨20⟩, 200⟩ (by decide) (by decide) (by decide) (by
      intro j y hj hy
      match j, hj with
      | 0, _ =>
        have hy' : y = ⟨⟨10⟩, 100⟩ := by simpa [Example.two_pdrs] using hy.symm
        subst hy'
        decide),
    (hp ⟨99⟩ (by decide)).1.trans (by decide),
    (hf ⟨7⟩ (by decide)).2.1 0 ⟨⟨7⟩, 70⟩ (by decide) (by decide) (by decide) (by
      intro j y hj
      exact absurd hj (by omega))⟩

/-- C8. Lookup after add, unique ids. For every stored session whose PDR array has
its declared size, whose counter is below that size and whose valid prefix has
no entry with the id of the rule: `addPDR` succeeds, `lookupPDR` of that id then
returns a value object whose record is exactly the inserted one, and
`lookupPDR` of every other id returns what it returned before the add. The
same for `addFAR` and `lookupFAR`. -/
theorem lookup_after_add (P F : Nat) (m : BPFMap) (session : pfcp_session_t_) (seid : Nat)
    (s : pfcp_session_t_) (hs : m seid = some s) :
    (∀ pPdr : PacketDetectionRules, s.pdrs.length = P → s.pdrs_counter < P →
      (∀ x ∈ s.pdrs.take s.pdrs_counter, x.pdr_id.rule_id ≠ pPdr.getPdrId.rule_id) →
      (addPDR P m session seid pPdr).1 = .ok () ∧
      (∀ session', (lookupPDR (addPDR P m session seid pPdr).2 session' seid
        pPdr.getPdrId).1 = some (RulesUtilities.createPDR pPdr.getData)) ∧
      (RulesUtilities.createPDR pPdr.getData).getData = pPdr.getData ∧
      (∀ (session' session'' : pfcp_session_t_) (pdrId : pdr_id_t_),
        pdrId.rule_id ≠ pPdr.getPdrId.rule_id →
        (lookupPDR (addPDR P m session seid pPdr).2 session' seid pdrId).1 =
          (lookupPDR m session'' seid pdrId).1)) ∧
    (∀ pFar : ForwardingActionRules, s.fars.length = F → s.fars_counter < F →
      (∀ x ∈ s.fars.take s.fars_counter, x.far_id.far_id ≠ pFar.getFARId.far_id) →
      (addFAR F m session seid pFar).1 = .ok () ∧
      (∀ session', (lookupFAR (addFAR F m session seid pFar).2 session' seid
        pFar.getFARId).1 = some (RulesUtilities.createFAR pFar.getData)) ∧
      (RulesUtilities.createFAR pFar.getData).getData = pFar.getData ∧
      (∀ (session' session'' : pfcp_session_t_) (farId : far_id_t_),
        farId.far_id ≠ pFar.getFARId.far_id →
        (lookupFAR (addFAR F m session seid pFar).2 session' seid farId).1 =
          (lookupFAR m session'' seid farId).1)) := by
  constructor
  · intro pPdr hlen hlt hnew
    have hc : s.pdrs_counter ≤ s.pdrs.length := by omega
    rw [addPDR_of_some P hs, if_neg (by omega)]
    have htake : (s.pdrs.set s.pdrs_counter pPdr.getData).take (s.pdrs_counter + 1) =
        s.pdrs.take s.pdrs_counter ++ [pPdr.getData] :=
      std.take_succ_set _ _ _ (by omega)
    refine ⟨rfl, ?_, rfl, ?_⟩
    · intro session'
      rw [lookupPDR_of_some (BPFMap.put_same _ _ _) (by simp; omega)]
      simp only [htake, List.find?_append]
      have : (s.pdrs.take s.pdrs_counter).find?
          (fun pdr => pdr.pdr_id.rule_id == pPdr.getPdrId.rule_id) = none := by
        rw [List.find?_eq_none]; intro x hx; simpa using hnew x hx
      rw [this]
      simp [PacketDetectionRules.getData, PacketDetectionRules.getPdrId]
    · intro session' session'' pdrId hne
      rw [lookupPDR_of_some (BPFMap.put_same _ _ _) (by simp; omega),
        lookupPDR_of_some hs hc]
      simp only [htake, List.find?_append]
      have : [pPdr.getData].find? (fun pdr => pdr.pdr_id.rule_id == pdrId.rule_id) = none := by
        rw [List.find?_eq_none]
        intro x hx
        have hx' : x = pPdr.getData := by simpa using hx
        subst hx'
        have h2 : pPdr.getData.pdr_id.rule_id ≠ pdrId.rule_id := fun h => hne h.symm
        simpa using h2
      rw [this]
      simp
  · intro pFar hlen hlt hnew
    have hc : s.fars_counter ≤ s.fars.length := by omega
    rw [addFAR_of_some F hs, if_neg (by omega)]
    have htake : (s.fars.set s.fars_counter pFar.getData).take (s.fars_counter + 1) =
        s.fars.take s.fars_counter ++ [pFar.getData] :=
      std.take_succ_set _ _ _ (by omega)
    refine ⟨rfl, ?_, rfl, ?_⟩
    · intro session'
      rw [lookupFAR_of_some (BPFMap.put_same _ _ _) (by simp; omega)]
      simp only [htake, List.find?_append]
      have : (s.fars.take s.fars_counter).find?
          (fun far => far.far_id.far_id == pFar.getFARId.far_id) = none := by
        rw [List.find?_eq_none]; intro x hx; simpa using hnew x hx
      rw [this]
      simp [ForwardingActionRules.getData, ForwardingActionRules.getFARId]
    · intro session' session'' farId hne
      rw [lookupFAR_of_some (BPFMap.put_same _ _ _) (by simp; omega),
        lookupFAR_of_some hs hc]
      simp only [htake, List.find?_append]
      have : [pFar.getData].find? (fun far => far.far_id.far_id == farId.far_id) = none := by
        rw [List.find?_eq_none]
        intro x hx
        have hx' : x = pFar.getData := by simpa using hx
        subst hx'
        have h2 : pFar.getData.far_id.far_id ≠ farId.far_id := fun h => hne h.symm
        simpa using h2
      rw [this]
      simp

/-- Instance of `lookup_after_add`: PDR 20 added next to PDR 10, FAR 7 added to the
fresh session. -/
theorem lookup_after_add_witness :
    Example.after_add_10 1 = some Example.one_pdr ∧
    (addPDR 3 Example.after_add_10 Example.stack 1 (Example.pdr 20 200)).1 = .ok () ∧
    (lookupPDR (addPDR 3 Example.after_add_10 Example.stack 1 (Example.pdr 20 200)).2
      Example.stack 1 ⟨20⟩).1 = some (Example.pdr 20 200) ∧
    (lookupPDR (addPDR 3 Example.after_add_10 Example.stack 1 (Example.pdr 20 200)).2
      Example.stack 1 ⟨10⟩).1 = (lookupPDR Example.after_add_10 Example.stack 1 ⟨10⟩).1 ∧
    (lookupFAR (addFAR 3 Example.created Example.stack 1 (Example.far 7 70)).2
      Example.stack 1 ⟨7⟩).1 = some (Example.far 7 70) :=
  have hp := (lookup_after_add 3 3 Example.after_add_10 Example.stack 1 Example.one_pdr
    (by decide)).1 (Example.pdr 20 200) (by decide) (by decide) (by decide)
  have hf := (lookup_after_add 3 3 Example.created Example.stack 1 (Example.fresh 1)
    (by decide)).2 (Example.far 7 70) (by decide) (by decide) (by decide)
  ⟨by decide, hp.1, hp.2.1 Example.stack, hp.2.2.2 Example.stack Example.stack ⟨10⟩ (by decide),
    hf.2.1 Example.stack⟩

/-- C9. Update preserves identity. For every stored session whose counter is within
the array and every rule whose id is the id of entry `i` of the valid FAR
prefix and of no entry before it: `updateFAR` succeeds and the record stored
afterwards has `fars_counter` and the length of `fars` as before, at index `i`
the old entry with the payload of the rule, so the same `far_id` at the same
index, every other entry of `fars` as before, and `pdrs`, `pdrs_counter` and
`seid` as before. The same for `updatePDR` with the roles of the arrays
exchanged. -/
theorem update_changes_payload_only (m : BPFMap) (session : pfcp_session_t_) (seid : Nat)
    (s : pfcp_session_t_) (hs : m seid = some s) :
    (∀ (pFar : ForwardingActionRules) (i : Nat) (x : pfcp_far_t_),
      s.fars_counter ≤ s.fars.length → i < s.fars_counter → s.fars[i]? = some x →
      x.far_id.far_id = pFar.getFARId.far_id →
      (∀ j y, j < i → s.fars[j]? = some y → y.far_id.far_id ≠ pFar.getFARId.far_id) →
      (updateFAR m session seid pFar).1 = .ok () ∧
      ∃ s', (updateFAR m session seid pFar).2 seid = some s' ∧
        s'.fars_counter = s.fars_counter ∧
        s'.fars.length = s.fars.length ∧
        s'.fars[i]? = some { x with payload := pFar.getData.payload } ∧
        (s'.fars[i]?).map (·.far_id) = some x.far_id ∧
        (∀ j, j ≠ i → s'.fars[j]? = s.fars[j]?) ∧
        s'.pdrs = s.pdrs ∧ s'.pdrs_counter = s.pdrs_counter ∧ s'.seid = s.seid) ∧
    (∀ (pPdr : PacketDetectionRules) (i : Nat) (x : pfcp_pdr_t_),
      s.pdrs_counter ≤ s.pdrs.length → i < s.pdrs_counter → s.pdrs[i]? = some x →
      x.pdr_id.rule_id = pPdr.getPdrId.rule_id →
      (∀ j y, j < i → s.pdrs[j]? = some y → y.pdr_id.rule_id ≠ pPdr.getPdrId.rule_id) →
      (updatePDR m session seid pPdr).1 = .ok () ∧
      ∃ s', (updatePDR m session seid pPdr).2 seid = some s' ∧
        s'.pdrs_counter = s.pdrs_counter ∧
        s'.pdrs.length = s.pdrs.length ∧
        s'.pdrs[i]? = some { x with payload := pPdr.getData.payload } ∧
        (s'.pdrs[i]?).map (·.pdr_id) = some x.pdr_id ∧
        (∀ j, j ≠ i → s'.pdrs[j]? = s.pdrs[j]?) ∧
        s'.fars = s.fars ∧ s'.fars_counter = s.fars_counter ∧ s'.seid = s.seid) := by
  constructor
  · intro pFar i x hc hi hx hid hfirst
    have hil : i < s.fars.length := by omega
    rw [updateFAR_first_match hs hc session pFar i x hi hx hid hfirst]
    refine ⟨rfl, _, BPFMap.put_same _ _ _, rfl, by simp, ?_, ?_, ?_, rfl, rfl, rfl⟩
    · simp [List.getElem?_set, hil, RulesUtilities.copyFAR]
    · simp [List.getElem?_set, hil, RulesUtilities.copyFAR]
    · intro j hj
      simp [List.getElem?_set, Ne.symm hj]
  · intro pPdr i x hc hi hx hid hfirst
    have hil : i < s.pdrs.length := by omega
    rw [updatePDR_first_match hs hc session pPdr i x hi hx hid hfirst]
    refine ⟨rfl, _, BPFMap.put_same _ _ _, rfl, by simp, ?_, ?_, ?_, rfl, rfl, rfl⟩
    · simp [List.getElem?_set, hil, RulesUtilities.copyPDR]
    · simp [List.getElem?_set, hil, RulesUtilities.copyPDR]
    · intro j hj
      simp [List.getElem?_set, Ne.symm hj]

/-- Instance of `update_changes_payload_only`: FAR 8 and PDR 10 of session 1
updated. -/
theorem update_changes_payload_only_witness :
    Example.after_add_fars 1 = some Example.two_fars ∧
    (updateFAR Example.after_add_fars Example.stack 1 (Example.far 8 99)).1 = .ok () ∧
    (updateFAR Example.after_add_fars Example.stack 1 (Example.far 8 99)).2 1 =
      some { Example.two_fars with fars := [⟨⟨7⟩, 70⟩, ⟨⟨8⟩, 99⟩, ⟨⟨0⟩, 0⟩] } ∧
    (updatePDR Example.after_add_20 Example.stack 1 (Example.pdr 10 55)).1 = .ok () ∧
    (updatePDR Example.after_add_20 Example.stack 1 (Example.pdr 10 55)).2 1 =
      some { Example.two_pdrs with pdrs := [⟨⟨10⟩, 55⟩, ⟨⟨20⟩, 200⟩, ⟨⟨0⟩, 0⟩] } :=
  have hf := (update_changes_payload_only Example.after_add_fars Example.stack 1
    Example.two_fars (by decide)).1 (Example.far 8 99) 1 ⟨⟨8⟩, 80⟩ (by decide) (by decide)
    (by decide) (by decide) (by
      intro j y hj hy
      match j, hj with
      | 0, _ =>
        have hy' : y = ⟨⟨7⟩, 70⟩ := by simpa [Example.two_fars] using hy.symm
        subst hy'
        decide)
  have hp := (update_changes_payload_only Example.after_add_20 Example.stack 1
    Example.two_pdrs (by decide)).2 (Example.pdr 10 55) 0 ⟨⟨10⟩, 100⟩ (by decide) (by decide)
    (by decide) (by decide) (by
      intro j y hj
      exact absurd hj (by omega))
  ⟨by decide, hf.1, by decide, hp.1, by decide⟩

/-- C10. Update of what is not there. For every stored session whose counter is
within the array: `updateFAR` throws if and only if `fars_counter` is 0 or no
entry of the valid prefix has the id of the rule; when it throws the message is
one of the two not-found messages and the map returned is the map before the
call. The same for `updatePDR`. -/
theorem update_fails_iff_not_found (m : BPFMap) (session : pfcp_session_t_) (seid : Nat)
    (s : pfcp_session_t_) (hs : m seid = some s) :
    (∀ pFar : ForwardingActionRules, s.fars_counter ≤ s.fars.length →
      ((updateFAR m session seid pFar).1 ≠ .ok () ↔
        (s.fars_counter = 0 ∨
          ∀ x ∈ s.fars.take s.fars_counter, x.far_id.far_id ≠ pFar.getFARId.far_id)) ∧
      ((updateFAR m session seid pFar).1 ≠ .ok () →
        ((updateFAR m session seid pFar).1 = .error .no_far_to_update ∨
          (updateFAR m session seid pFar).1 = .error .far_not_found) ∧
        (updateFAR m session seid pFar).2 = m)) ∧
    (∀ pPdr : PacketDetectionRules, s.pdrs_counter ≤ s.pdrs.length →
      ((updatePDR m session seid pPdr).1 ≠ .ok () ↔
        (s.pdrs_counter = 0 ∨
          ∀ x ∈ s.pdrs.take s.pdrs_counter, x.pdr_id.rule_id ≠ pPdr.getPdrId.rule_id)) ∧
      ((updatePDR m session seid pPdr).1 ≠ .ok () →
        ((updatePDR m session seid pPdr).1 = .error .no_pdr_to_update ∨
          (updatePDR m session seid pPdr).1 = .error .pdr_not_found) ∧
        (updatePDR m session seid pPdr).2 = m)) := by
  constructor
  · intro pFar hc
    have hlen : (s.fars.take s.fars_counter).length = s.fars_counter := by simp [hc]
    obtain ⟨h1, h2⟩ := updateFAR_outcome hs hc session pFar
    have hiff : (s.fars.take s.fars_counter).findIdx
        (fun far => far.far_id.far_id == pFar.getFARId.far_id) = s.fars_counter ↔
        ∀ x ∈ s.fars.take s.fars_counter, x.far_id.far_id ≠ pFar.getFARId.far_id := by
      rw [std.findIdx_take_eq_iff _ _ _ hc]
      simp
    refine ⟨?_, fun hne => ⟨?_, h2 hne⟩⟩
    · rw [h1]
      by_cases h0 : s.fars_counter = 0
      · simp [h0]
      · by_cases hf : (s.fars.take s.fars_counter).findIdx
            (fun far => far.far_id.far_id == pFar.getFARId.far_id) = s.fars_counter
        · rw [if_neg h0, if_pos hf]
          exact ⟨fun _ => Or.inr (hiff.1 hf), fun _ => by simp⟩
        · rw [if_neg h0, if_neg hf]
          exact ⟨fun h => absurd rfl h, fun h => h.elim (fun h => absurd h h0)
            (fun h => absurd (hiff.2 h) hf)⟩
    · rw [h1] at hne ⊢
      by_cases h0 : s.fars_counter = 0
      · simp [h0]
      · by_cases hf : (s.fars.take s.fars_counter).findIdx
            (fun far => far.far_id.far_id == pFar.getFARId.far_id) = s.fars_counter
        · simp [h0, hf]
        · rw [if_neg h0, if_neg hf] at hne
          exact absurd rfl hne
  · intro pPdr hc
    have hlen : (s.pdrs.take s.pdrs_counter).length = s.pdrs_counter := by simp [hc]
    obtain ⟨h1, h2⟩ := updatePDR_outcome hs hc session pPdr
    have hiff : (s.pdrs.take s.pdrs_counter).findIdx
        (fun pdr => pdr.pdr_id.rule_id == pPdr.getPdrId.rule_id) = s.pdrs_counter ↔
        ∀ x ∈ s.pdrs.take s.pdrs_counter, x.pdr_id.rule_id ≠ pPdr.getPdrId.rule_id := by
      rw [std.findIdx_take_eq_iff _ _ _ hc]
      simp
    refine ⟨?_, fun hne => ⟨?_, h2 hne⟩⟩
    · rw [h1]
      by_cases h0 : s.pdrs_counter = 0
      · simp [h0]
      · by_cases hf : (s.pdrs.take s.pdrs_counter).findIdx
            (fun pdr => pdr.pdr_id.rule_id == pPdr.getPdrId.rule_id) = s.pdrs_counter
        · rw [if_neg h0, if_pos hf]
          exact ⟨fun _ => Or.inr (hiff.1 hf), fun _ => by simp⟩
        · rw [if_neg h0, if_neg hf]
          exact ⟨fun h => absurd rfl h, fun h => h.elim (fun h => absurd h h0)
            (fun h => absurd (hiff.2 h) hf)⟩
    · rw [h1] at hne ⊢
      by_cases h0 : s.pdrs_counter = 0
      · simp [h0]
      · by_cases hf : (s.pdrs.take s.pdrs_counter).findIdx
            (fun pdr => pdr.pdr_id.rule_id == pPdr.getPdrId.rule_id) = s.pdrs_counter
        · simp [h0, hf]
        · rw [if_neg h0, if_neg hf] at hne
          exact absurd rfl hne

/-- Instance of `update_fails_iff_not_found`: an update in the fresh session 1 and
an update of the absent id 99. -/
theorem update_fails_iff_not_found_witness :
    Example.created 1 = some (Example.fresh 1) ∧
    (updateFAR Example.created Example.stack 1 (Example.far 7 0)).1 ≠ .ok () ∧
    (updateFAR Example.created Example.stack 1 (Example.far 7 0)).2 = Example.created ∧
    (updatePDR Example.after_add_20 Example.stack 1 (Example.pdr 99 0)).1 ≠ .ok () ∧
    (updatePDR Example.after_add_20 Example.stack 1 (Example.pdr 99 0)).2 =
      Example.after_add_20 :=
  have hf := (update_fails_iff_not_found Example.created Example.stack 1 (Example.fresh 1)
    (by decide)).1 (Example.far 7 0) (by decide)
  have hp := (update_fails_iff_not_found Example.after_add_20 Example.stack 1
    Example.two_pdrs (by decide)).2 (Example.pdr 99 0) (by decide)
  have hf1 := hf.1.2 (Or.inl (by decide))
  have hp1 := hp.1.2 (Or.inr (by decide))
  ⟨by decide, hf1, (hf.2 hf1).2, hp1, (hp.2 hp1).2⟩

end SessionManager

/-! ## Failed store calls and invariants of the sessions map -/

namespace BPFMap

/-- A lookup of an absent key fails and leaves the caller's record as it was. -/
theorem lookup_of_none {m : BPFMap} {key : Nat} (h : m key = none) (value : pfcp_session_t_) :
    m.lookup key value = (-1, value) := by
  simp [lookup, h]

/-- Replacing the value of an absent key fails and leaves the map as it was. -/
theorem update_EXIST_of_none {m : BPFMap} {key : Nat} (h : m key = none)
    (value : pfcp_session_t_) : m.update key value .BPF_EXIST = (-1, m) := by
  simp [update, h]

/-- A replace either finds the key absent and changes nothing, or writes the value. -/
theorem update_EXIST_cases (m : BPFMap) (key : Nat) (value : pfcp_session_t_) :
    (m key = none ∧ (m.update key value .BPF_EXIST).2 = m) ∨
    (m key ≠ none ∧ (m.update key value .BPF_EXIST).2 = m.put key value) := by
  cases h : m key with
  | none => exact Or.inl ⟨rfl, by rw [update_EXIST_of_none h]⟩
  | some s => exact Or.inr ⟨by simp, by rw [update_EXIST_of_some h]⟩

/-- Two maps with the same entries, the same number of keys and the same room
are the same map. -/
theorem eq_of_entries {m m' : BPFMap} (he : ∀ k, m k = m' k) (hs : m.size = m'.size)
    (hm : m.max_entries = m'.max_entries) : m = m' := by
  cases m
  cases m'
  simp only [mk.injEq]
  exact ⟨funext he, hs, hm⟩

/-- Creating a key that was absent and erasing it gives the map back. -/
theorem erase_insert_of_none {m : BPFMap} {key : Nat} (h : m key = none)
    (value : pfcp_session_t_) : (m.insert key value).erase key = m := by
  apply eq_of_entries
  · intro k
    by_cases hk : k = key
    · subst hk; simp [erase, h]
    · simp [erase, insert, put, hk]
  · simp [erase, insert, put]
  · simp [erase, insert, put]

/-- A second write under the same key replaces the first. -/
theorem put_put (m : BPFMap) (key : Nat) (a b : pfcp_session_t_) :
    (m.put key a).put key b = m.put key b := by
  apply eq_of_entries
  · intro k
    by_cases hk : k = key <;> simp [put, hk]
  · simp [put]
  · simp [put]

/-- Writing a record with bounded counters keeps the counters of the map bounded. -/
theorem counters_bounded_put {P F : Nat} {m : BPFMap} (h : m.counters_bounded P F)
    (key : Nat) (value : pfcp_session_t_) (hP : value.pdrs_counter ≤ P)
    (hF : value.fars_counter ≤ F) : (m.put key value).counters_bounded P F := by
  intro k r hk
  by_cases hkey : k = key
  · have : value = r := by simpa [put, hkey] using hk
    subst this
    exact ⟨hP, hF⟩
  · exact h k r (by simpa [put, hkey] using hk)

/-- Replacing by a record with bounded counters keeps the counters of the map
bounded. -/
theorem counters_bounded_update_EXIST {P F : Nat} {m : BPFMap} (h : m.counters_bounded P F)
    (key : Nat) (value : pfcp_session_t_) (hP : value.pdrs_counter ≤ P)
    (hF : value.fars_counter ≤ F) :
    ((m.update key value .BPF_EXIST).2).counters_bounded P F := by
  rcases update_EXIST_cases m key value with ⟨_, he⟩ | ⟨_, he⟩
  · rw [he]; exact h
  · rw [he]; exact counters_bounded_put h key value hP hF

/-- Writing a record under its own `seid` keeps the keys in agreement. -/
theorem keys_agree_put {m : BPFMap} (h : m.keys_agree) (key : Nat) (value : pfcp_session_t_)
    (hv : value.seid = key) : (m.put key value).keys_agree := by
  intro k r hk
  by_cases hkey : k = key
  · have : value = r := by simpa [put, hkey] using hk
    subst this
    rw [hv, hkey]
  · exact h k r (by simpa [put, hkey] using hk)

/-- Creating a key with a record that carries it keeps the keys in agreement. -/
theorem keys_agree_insert {m : BPFMap} (h : m.keys_agree) (key : Nat)
    (value : pfcp_session_t_) (hv : value.seid = key) : (m.insert key value).keys_agree := by
  intro k r hk
  by_cases hkey : k = key
  · have : value = r := by simpa [insert, put, hkey] using hk
    subst this
    rw [hv, hkey]
  · exact h k r (by simpa [insert, put, hkey] using hk)

/-- Creating a key with a record of bounded counters keeps the counters of the
map bounded. -/
theorem counters_bounded_insert {P F : Nat} {m : BPFMap} (h : m.counters_bounded P F)
    (key : Nat) (value : pfcp_session_t_) (hP : value.pdrs_counter ≤ P)
    (hF : value.fars_counter ≤ F) : (m.insert key value).counters_bounded P F := by
  intro k r hk
  by_cases hkey : k = key
  · have : value = r := by simpa [insert, put, hkey] using hk
    subst this
    exact ⟨hP, hF⟩
  · exact h k r (by simpa [insert, put, hkey] using hk)

/-- An `update` of a record under its own `seid` keeps the keys in agreement,
whatever the flag. -/
theorem keys_agree_update {m : BPFMap} (h : m.keys_agree) (key : Nat)
    (value : pfcp_session_t_) (flags : UpdateFlag) (hv : value.seid = key) :
    ((m.update key value flags).2).keys_agree := by
  unfold update
  split
  · exact h
  · exact h
  · exact keys_agree_put h key value hv
  · split
    · exact keys_agree_insert h key value hv
    · exact h

/-- A replace keeps the keys in agreement when the record written carries the key
in case the key is present. -/
theorem keys_agree_update_EXIST_of {m : BPFMap} (h : m.keys_agree) (key : Nat)
    (value : pfcp_session_t_) (hv : m key ≠ none → value.seid = key) :
    ((m.update key value .BPF_EXIST).2).keys_agree := by
  rcases update_EXIST_cases m key value with ⟨_, he⟩ | ⟨hne, he⟩
  · rw [he]; exact h
  · rw [he]; exact keys_agree_put h key value (hv hne)

/-- With the keys in agreement, the record a successful lookup returns carries the
key looked up. -/
theorem lookup_seid {m : BPFMap} (h : m.keys_agree) (key : Nat) (value : pfcp_session_t_)
    (hne : m key ≠ none) : (m.lookup key value).2.seid = key := by
  cases hk : m key with
  | none => exact absurd hk hne
  | some s => rw [lookup_of_some hk]; exact h key s hk

/-- Writing under one key leaves the other keys as they were. -/
theorem same_elsewhere_put (m : BPFMap) (key : Nat) (value : pfcp_session_t_) :
    m.same_elsewhere (m.put key value) key := by
  intro k hk
  simp [put, hk]

/-- Writing under a present key leaves the set of keys as it was. -/
theorem same_keys_put {m : BPFMap} {key : Nat} {s : pfcp_session_t_} (h : m key = some s)
    (value : pfcp_session_t_) : m.same_keys (m.put key value) := by
  intro k
  by_cases hk : k = key
  · subst hk; simp [put, h]
  · simp [put, hk]

end BPFMap

namespace SessionManager

/-! ## Absent sessions, shapes of the write-back, two callers -/

/-- On a present key `removeSession` succeeds and erases the key. -/
theorem removeSession_of_some {m : BPFMap} {seid : Nat} {s : pfcp_session_t_}
    (h : m seid = some s) : removeSession m seid = (.ok (), m.erase seid) := by
  simp [removeSession, BPFMap.remove, h]

/-- On an absent key `removeSession` throws and leaves the map as it was. -/
theorem removeSession_of_none {m : BPFMap} {seid : Nat} (h : m seid = none) :
    removeSession m seid = (.error .cannot_remove_session, m) := by
  simp [removeSession, BPFMap.remove, h]

/-- What `addFAR` does when the session is absent: the capacity test runs on the
local record as it was before the lookup, and the map is never changed. -/
theorem addFAR_of_none (F : Nat) {m : BPFMap} {seid : Nat} (h : m seid = none)
    (session : pfcp_session_t_) (pFar : ForwardingActionRules) :
    addFAR F m session seid pFar =
      if F ≤ session.fars_counter then (.error .far_cannot_be_added, m) else (.ok (), m) := by
  simp only [addFAR, BPFMap.lookup_of_none h, ge_iff_le, BPFMap.update_EXIST_of_none h]

/-- What `addPDR` does when the session is absent: as `addFAR`. -/
theorem addPDR_of_none (P : Nat) {m : BPFMap} {seid : Nat} (h : m seid = none)
    (session : pfcp_session_t_) (pPdr : PacketDetectionRules) :
    addPDR P m session seid pPdr =
      if P ≤ session.pdrs_counter then (.error .pdr_cannot_be_added, m) else (.ok (), m) := by
  simp only [addPDR, BPFMap.lookup_of_none h, ge_iff_le, BPFMap.update_EXIST_of_none h]

/-- With the session absent `updateFAR` leaves the map as it was, whatever it
returns. -/
theorem updateFAR_of_none {m : BPFMap} {seid : Nat} (h : m seid = none)
    (session : pfcp_session_t_) (pFar : ForwardingActionRules) :
    (updateFAR m session seid pFar).2 = m := by
  simp only [updateFAR, BPFMap.update_EXIST_of_none h]
  split
  · rfl
  · split <;> rfl

/-- With the session absent `updatePDR` leaves the map as it was, whatever it
returns. -/
theorem updatePDR_of_none {m : BPFMap} {seid : Nat} (h : m seid = none)
    (session : pfcp_session_t_) (pPdr : PacketDetectionRules) :
    (updatePDR m session seid pPdr).2 = m := by
  simp only [updatePDR, BPFMap.update_EXIST_of_none h]
  split
  · rfl
  · split <;> rfl

/-- With the session absent, and the `seid` of the local record absent too,
`removeFAR` leaves the map as it was, whatever it returns. -/
theorem removeFAR_of_none {m : BPFMap} {seid : Nat} (h : m seid = none)
    (session : pfcp_session_t_) (hkey : m session.seid = none) (pFar : ForwardingActionRules) :
    (removeFAR m session seid pFar).2 = m := by
  simp only [removeFAR, BPFMap.lookup_of_none h, BPFMap.update_EXIST_of_none hkey]
  split
  · rfl
  · split <;> rfl

/-- With the session absent, and the `seid` of the local record absent too,
`removePDR` leaves the map as it was, whatever it returns. -/
theorem removePDR_of_none {m : BPFMap} {seid : Nat} (h : m seid = none)
    (session : pfcp_session_t_) (hkey : m session.seid = none) (pPdr : PacketDetectionRules) :
    (removePDR m session seid pPdr).2 = m := by
  simp only [removePDR, BPFMap.lookup_of_none h, BPFMap.update_EXIST_of_none hkey]
  split
  · rfl
  · split <;> rfl

/-- After successive `addPDR` calls that stay within the capacity, the valid prefix
is the old one followed by the records of the rules, in the order of the calls. -/
theorem addPDR_calls_prefix (P : Nat) (session : pfcp_session_t_) (seid : Nat) :
    ∀ (rs : List PacketDetectionRules) (m : BPFMap) (s : pfcp_session_t_),
      m seid = some s → s.pdrs.length = P → s.pdrs_counter + rs.length ≤ P →
      ∃ s', (addPDR_calls P session seid m rs).2 seid = some s' ∧
        s'.pdrs_counter = s.pdrs_counter + rs.length ∧ s'.pdrs.length = P ∧
        s'.pdrs.take s'.pdrs_counter =
          s.pdrs.take s.pdrs_counter ++ rs.map PacketDetectionRules.getData
  | [], m, s, hs, hlen, _ => by simp [addPDR_calls, hs, hlen]
  | r :: rs, m, s, hs, hlen, hle => by
    have hlt : ¬ P ≤ s.pdrs_counter := by simp at hle; omega
    have hadd := addPDR_of_some P hs session r
    rw [if_neg hlt] at hadd
    obtain ⟨s', h1, h2, h3, h4⟩ := addPDR_calls_prefix P session seid rs
      (m.put seid { s with
        pdrs_counter := s.pdrs_counter + 1
        pdrs := s.pdrs.set s.pdrs_counter r.getData })
      { s with
        pdrs_counter := s.pdrs_counter + 1
        pdrs := s.pdrs.set s.pdrs_counter r.getData }
      (BPFMap.put_same m seid _) (by simpa using hlen) (by simp at hle ⊢; omega)
    simp only [addPDR_calls, hadd]
    refine ⟨s', h1, ?_, h3, ?_⟩
    · rw [h2]; simp only [List.length_cons]; omega
    · rw [h4, std.take_succ_set _ _ _ (by omega)]
      simp

/-- The map after `addFAR` on a stored session: unchanged when it throws,
otherwise the stored record with a new `fars` and the counter plus one. -/
theorem addFAR_shape (F : Nat) {m : BPFMap} {seid : Nat} {s : pfcp_session_t_}
    (h : m seid = some s) (session : pfcp_session_t_) (pFar : ForwardingActionRules) :
    ((addFAR F m session seid pFar).1 ≠ .ok () ∧ (addFAR F m session seid pFar).2 = m) ∨
    ((addFAR F m session seid pFar).1 = .ok () ∧ s.fars_counter < F ∧
      ∃ fars', (addFAR F m session seid pFar).2 =
        m.put seid { s with fars := fars', fars_counter := s.fars_counter + 1 }) := by
  rw [addFAR_of_some F h]
  by_cases hc : F ≤ s.fars_counter
  · rw [if_pos hc]; exact Or.inl ⟨by simp, rfl⟩
  · rw [if_neg hc]; exact Or.inr ⟨rfl, by omega, _, rfl⟩

/-- The map after `updateFAR` on a stored session: unchanged when it throws,
otherwise the stored record with a new `fars`. -/
theorem updateFAR_shape {m : BPFMap} {seid : Nat} {s : pfcp_session_t_}
    (h : m seid = some s) (session : pfcp_session_t_) (pFar : ForwardingActionRules) :
    ((updateFAR m session seid pFar).1 ≠ .ok () ∧ (updateFAR m session seid pFar).2 = m) ∨
    ((updateFAR m session seid pFar).1 = .ok () ∧
      ∃ fars', (updateFAR m session seid pFar).2 = m.put seid { s with fars := fars' }) := by
  simp only [updateFAR, BPFMap.lookup_of_some h, BPFMap.update_EXIST_of_some h]
  split
  · exact Or.inl ⟨by simp, rfl⟩
  · split
    · exact Or.inl ⟨by simp, rfl⟩
    · exact Or.inr ⟨rfl, _, rfl⟩

/-- The map after `removeFAR` on a stored session: unchanged when it throws,
otherwise the replace, under the `seid` of the record, of the record with a new
`fars` and the counter minus one. -/
theorem removeFAR_shape {m : BPFMap} {seid : Nat} {s : pfcp_session_t_}
    (h : m seid = some s) (session : pfcp_session_t_) (pFar : ForwardingActionRules) :
    ((removeFAR m session seid pFar).1 ≠ .ok () ∧ (removeFAR m session seid pFar).2 = m) ∨
    ((removeFAR m session seid pFar).1 = .ok () ∧ 0 < s.fars_counter ∧
      ∃ fars', (removeFAR m session seid pFar).2 =
        (m.update s.seid { s with fars := fars', fars_counter := s.fars_counter - 1 }
          .BPF_EXIST).2) := by
  rw [removeFAR_of_some h]
  split
  · exact Or.inl ⟨by simp, rfl⟩
  · split
    · exact Or.inl ⟨by simp, rfl⟩
    · exact Or.inr ⟨rfl, by omega, _, rfl⟩

/-- The map after `addPDR` on a stored session: unchanged when it throws,
otherwise the stored record with a new `pdrs` and the counter plus one. -/
theorem addPDR_shape (P : Nat) {m : BPFMap} {seid : Nat} {s : pfcp_session_t_}
    (h : m seid = some s) (session : pfcp_session_t_) (pPdr : PacketDetectionRules) :
    ((addPDR P m session seid pPdr).1 ≠ .ok () ∧ (addPDR P m session seid pPdr).2 = m) ∨
    ((addPDR P m session seid pPdr).1 = .ok () ∧ s.pdrs_counter < P ∧
      ∃ pdrs', (addPDR P m session seid pPdr).2 =
        m.put seid { s with pdrs := pdrs', pdrs_counter := s.pdrs_counter + 1 }) := by
  rw [addPDR_of_some P h]
  by_cases hc : P ≤ s.pdrs_counter
  · rw [if_pos hc]; exact Or.inl ⟨by simp, rfl⟩
  · rw [if_neg hc]; exact Or.inr ⟨rfl, by omega, _, rfl⟩

/-- The map after `updatePDR` on a stored session: unchanged when it throws,
otherwise the stored record with a new `pdrs`. -/
theorem updatePDR_shape {m : BPFMap} {seid : Nat} {s : pfcp_session_t_}
    (h : m seid = some s) (session : pfcp_session_t_) (pPdr : PacketDetectionRules) :
    ((updatePDR m session seid pPdr).1 ≠ .ok () ∧ (updatePDR m session seid pPdr).2 = m) ∨
    ((updatePDR m session seid pPdr).1 = .ok () ∧
      ∃ pdrs', (updatePDR m session seid pPdr).2 = m.put seid { s with pdrs := pdrs' }) := by
  simp only [updatePDR, BPFMap.lookup_of_some h, BPFMap.update_EXIST_of_some h]
  split
  · exact Or.inl ⟨by simp, rfl⟩
  · split
    · exact Or.inl ⟨by simp, rfl⟩
    · exact Or.inr ⟨rfl, _, rfl⟩

/-- The map after `removePDR` on a stored session: unchanged when it throws,
otherwise the replace, under the `seid` of the record, of the record with a new
`pdrs` and the counter minus one. -/
theorem removePDR_shape {m : BPFMap} {seid : Nat} {s : pfcp_session_t_}
    (h : m seid = some s) (session : pfcp_session_t_) (pPdr : PacketDetectionRules) :
    ((removePDR m session seid pPdr).1 ≠ .ok () ∧ (removePDR m session seid pPdr).2 = m) ∨
    ((removePDR m session seid pPdr).1 = .ok () ∧ 0 < s.pdrs_counter ∧
      ∃ pdrs', (removePDR m session seid pPdr).2 =
        (m.update s.seid { s with pdrs := pdrs', pdrs_counter := s.pdrs_counter - 1 }
          .BPF_EXIST).2) := by
  rw [removePDR_of_some h]
  split
  · exact Or.inl ⟨by simp, rfl⟩
  · split
    · exact Or.inl ⟨by simp, rfl⟩
    · exact Or.inr ⟨rfl, by omega, _, rfl⟩

/-- The method `addFAR` keeps the keys in agreement, for every `seid` and local. -/
theorem addFAR_keys_agree (F : Nat) {m : BPFMap} (h : m.keys_agree) (session : pfcp_session_t_)
    (seid : Nat) (pFar : ForwardingActionRules) :
    ((addFAR F m session seid pFar).2).keys_agree := by
  simp only [addFAR]
  split
  · exact h
  · exact BPFMap.keys_agree_update_EXIST_of h seid _
      (fun hne => BPFMap.lookup_seid h seid session hne)

/-- The method `updateFAR` keeps the keys in agreement, for every `seid` and local. -/
theorem updateFAR_keys_agree {m : BPFMap} (h : m.keys_agree) (session : pfcp_session_t_)
    (seid : Nat) (pFar : ForwardingActionRules) :
    ((updateFAR m session seid pFar).2).keys_agree := by
  simp only [updateFAR]
  split
  · exact h
  · split
    · exact h
    · exact BPFMap.keys_agree_update_EXIST_of h seid _
        (fun hne => BPFMap.lookup_seid h seid session hne)

/-- The method `removeFAR` keeps the keys in agreement, for every `seid` and local:
it writes a record under the `seid` that record carries. -/
theorem removeFAR_keys_agree {m : BPFMap} (h : m.keys_agree) (session : pfcp_session_t_)
    (seid : Nat) (pFar : ForwardingActionRules) :
    ((removeFAR m session seid pFar).2).keys_agree := by
  simp only [removeFAR]
  split
  · exact h
  · split
    · exact h
    · exact BPFMap.keys_agree_update h _ _ _ rfl

/-- The method `addPDR` keeps the keys in agreement, for every `seid` and local. -/
theorem addPDR_keys_agree (P : Nat) {m : BPFMap} (h : m.keys_agree) (session : pfcp_session_t_)
    (seid : Nat) (pPdr : PacketDetectionRules) :
    ((addPDR P m session seid pPdr).2).keys_agree := by
  simp only [addPDR]
  split
  · exact h
  · exact BPFMap.keys_agree_update_EXIST_of h seid _
      (fun hne => BPFMap.lookup_seid h seid session hne)

/-- The method `updatePDR` keeps the keys in agreement, for every `seid` and local. -/
theorem updatePDR_keys_agree {m : BPFMap} (h : m.keys_agree) (session : pfcp_session_t_)
    (seid : Nat) (pPdr : PacketDetectionRules) :
    ((updatePDR m session seid pPdr).2).keys_agree := by
  simp only [updatePDR]
  split
  · exact h
  · split
    · exact h
    · exact BPFMap.keys_agree_update_EXIST_of h seid _
        (fun hne => BPFMap.lookup_seid h seid session hne)

/-- The method `removePDR` keeps the keys in agreement, for every `seid` and local:
it writes a record under the `seid` that record carries. -/
theorem removePDR_keys_agree {m : BPFMap} (h : m.keys_agree) (session : pfcp_session_t_)
    (seid : Nat) (pPdr : PacketDetectionRules) :
    ((removePDR m session seid pPdr).2).keys_agree := by
  simp only [removePDR]
  split
  · exact h
  · split
    · exact h
    · exact BPFMap.keys_agree_update h _ _ _ rfl

/-- The method `addFAR` is its first half followed by its second half. -/
theorem addFAR_eq_halves (F : Nat) (m : BPFMap) (session : pfcp_session_t_) (seid : Nat)
    (pFar : ForwardingActionRules) :
    addFAR F m session seid pFar =
      match addFAR_read F m session seid pFar with
      | .ok local_session => (.ok (), addFAR_write m seid local_session)
      | .error e => (.error e, m) := by
  simp only [addFAR, addFAR_read, addFAR_write]
  split <;> rfl

/-- The first half of `addFAR` on a stored session below capacity. -/
theorem addFAR_read_of_some (F : Nat) {m : BPFMap} {seid : Nat} {s : pfcp_session_t_}
    (h : m seid = some s) (hlt : s.fars_counter < F) (session : pfcp_session_t_)
    (pFar : ForwardingActionRules) :
    addFAR_read F m session seid pFar = .ok { s with
      fars_counter := s.fars_counter + 1
      fars := s.fars.set s.fars_counter pFar.getData } := by
  simp only [addFAR_read, BPFMap.lookup_of_some h, ge_iff_le]
  rw [if_neg (by omega)]

/-- When both callers read before either writes, the map ends with the record the
second writer computed from the session as it was at the start: the counter
is larger by one and the entry of the first writer is overwritten. -/
theorem lost_update (F : Nat) {m : BPFMap} {seid : Nat} {s : pfcp_session_t_}
    (h : m seid = some s) (hlt : s.fars_counter < F) (sessionA sessionB : pfcp_session_t_)
    (pFarA pFarB : ForwardingActionRules) :
    (run F sessionA sessionB seid pFarA pFarB m [.readA, .readB, .writeA, .writeB]).map =
      m.put seid { s with
        fars_counter := s.fars_counter + 1
        fars := s.fars.set s.fars_counter pFarB.getData } := by
  have hA := addFAR_read_of_some F h hlt sessionA pFarA
  have hB := addFAR_read_of_some F h hlt sessionB pFarB
  simp only [run, List.foldl, step, hA, hB, addFAR_write, BPFMap.update_EXIST_of_some h,
    BPFMap.update_EXIST_of_some (BPFMap.put_same m seid _)]
  exact BPFMap.put_put m seid _ _

/-- The counters of the map holding the fresh session 1 are within capacity 3. -/
theorem created_counters_bounded : Example.created.counters_bounded 3 3 := by
  have he : Example.created = BPFMap.empty.insert 1 (Example.fresh 1) := rfl
  rw [he]
  exact BPFMap.counters_bounded_insert (fun k r hk => by simp [BPFMap.empty] at hk) 1 _
    (by decide) (by decide)

/-- The keys of the map holding the fresh session 1 agree. -/
theorem created_keys_agree : Example.created.keys_agree := by
  have he : Example.created = BPFMap.empty.insert 1 (Example.fresh 1) := rfl
  rw [he]
  exact BPFMap.keys_agree_insert (fun k r hk => by simp [BPFMap.empty] at hk) 1 _ rfl

/-- The keys of the map holding session 1 with the FARs 7 and 8 agree. -/
theorem after_add_fars_keys_agree : Example.after_add_fars.keys_agree := by
  have he : Example.after_add_fars =
      (addFAR 3 (addFAR 3 Example.created Example.stack 1 (Example.far 7 70)).2
        Example.stack 1 (Example.far 8 80)).2 := rfl
  rw [he]
  exact addFAR_keys_agree 3 (addFAR_keys_agree 3 created_keys_agree _ _ _) _ _ _

/-! ## The properties of the session manager, continued -/

/-- C11. Add to an absent session, evaluated. The map holds session 1 only. With a
zero-filled local `session`, `addFAR` and `addPDR` on the absent `seid` 2 return
normally, so success is reported, and the map is as it was. With a local whose
counters are at the capacity they throw the capacity error ("The FAR cannot be
added in the session", "The PDR cannot be added in the session"). On neither
path is the absence of the session reported. -/
theorem add_to_absent_session_trace :
    Example.created 2 = none ∧
    addFAR 3 Example.created (Example.fresh 0) 2 (Example.far 7 70) =
      (.ok (), Example.created) ∧
    addPDR 3 Example.created (Example.fresh 0) 2 (Example.pdr 10 100) =
      (.ok (), Example.created) ∧
    addFAR 3 Example.created Example.full_stack 2 (Example.far 7 70) =
      (.error .far_cannot_be_added, Example.created) ∧
    addPDR 3 Example.created Example.full_stack 2 (Example.pdr 10 100) =
      (.error .pdr_cannot_be_added, Example.created) := by
  have h : Example.created 2 = none := by decide
  refine ⟨h, ?_, ?_, ?_, ?_⟩
  · rw [addFAR_of_none 3 h]; rfl
  · rw [addPDR_of_none 3 h]; rfl
  · rw [addFAR_of_none 3 h]; rfl
  · rw [addPDR_of_none 3 h]; rfl

/-- C12. Store failures that are not reported, evaluated. On the map holding
session 1 only, the lookup of `seid` 2 fails and every replace under `seid` 2
fails, yet `addFAR` and `addPDR` on `seid` 2, with a zero-filled local, return
normally and the map is as it was. On the empty map, where every lookup and
every replace fails, `updateFAR`, `updatePDR`, `removeFAR` and `removePDR` on
`seid` 2 return normally when the local `session` holds a record with a
matching rule, and the map is as it was. -/
theorem store_failure_unreported_trace :
    (Example.created.lookup 2 (Example.fresh 0)).1 = -1 ∧
    (∀ value, (Example.created.update 2 value .BPF_EXIST).1 = -1) ∧
    addFAR 3 Example.created (Example.fresh 0) 2 (Example.far 7 70) =
      (.ok (), Example.created) ∧
    addPDR 3 Example.created (Example.fresh 0) 2 (Example.pdr 10 100) =
      (.ok (), Example.created) ∧
    (BPFMap.empty.lookup 2 Example.two_fars).1 = -1 ∧
    (∀ key value, (BPFMap.empty.update key value .BPF_EXIST).1 = -1) ∧
    updateFAR BPFMap.empty Example.two_fars 2 (Example.far 7 99) = (.ok (), BPFMap.empty) ∧
    updatePDR BPFMap.empty Example.two_pdrs 2 (Example.pdr 10 55) = (.ok (), BPFMap.empty) ∧
    removeFAR BPFMap.empty Example.two_fars 2 (Example.far 7 0) = (.ok (), BPFMap.empty) ∧
    removePDR BPFMap.empty Example.two_pdrs 2 (Example.pdr 10 0) = (.ok (), BPFMap.empty) := by
  have h : Example.created 2 = none := by decide
  have he : ∀ k, BPFMap.empty k = none := fun _ => rfl
  refine ⟨by decide, ?_, ?_, ?_, by decide, ?_, ?_, ?_, ?_, ?_⟩
  · intro value; rw [BPFMap.update_EXIST_of_none h]
  · rw [addFAR_of_none 3 h]; rfl
  · rw [addPDR_of_none 3 h]; rfl
  · intro key value; rw [BPFMap.update_EXIST_of_none (he key)]
  · exact Prod.ext (by decide) (updateFAR_of_none (he 2) _ _)
  · exact Prod.ext (by decide) (updatePDR_of_none (he 2) _ _)
  · exact Prod.ext (by decide) (removeFAR_of_none (he 2) _ (he _) _)
  · exact Prod.ext (by decide) (removePDR_of_none (he 2) _ (he _) _)

/-- C13, as amended. Create/remove round trip. For every sessions map in which
`s.seid` is absent, `createSession` of `s` succeeds if and only if the map has
room for a new key; and if it succeeds, it has stored `s`, `removeSession` of
`s.seid` then succeeds and leaves `s.seid` absent, the map being the map before
the create, and a second `createSession` of `s` succeeds again, with the result
of the first one. -/
theorem create_remove_round_trip (m : BPFMap) (s : pfcp_session_t_) (h : m s.seid = none) :
    ((createSession m s).1 = .ok () ↔ m.size < m.max_entries) ∧
    ((createSession m s).1 = .ok () →
      (createSession m s).2 s.seid = some s ∧
      (removeSession (createSession m s).2 s.seid).1 = .ok () ∧
      (removeSession (createSession m s).2 s.seid).2 s.seid = none ∧
      (removeSession (createSession m s).2 s.seid).2 = m ∧
      (createSession (removeSession (createSession m s).2 s.seid).2 s).1 = .ok () ∧
      createSession (removeSession (createSession m s).2 s.seid).2 s = createSession m s) := by
  by_cases hroom : m.size < m.max_entries
  · have h1 := createSession_of_none h hroom
    have h2 : removeSession (m.insert s.seid s) s.seid =
        (.ok (), (m.insert s.seid s).erase s.seid) :=
      removeSession_of_some (BPFMap.insert_same m s.seid s)
    rw [h1]
    simp only [h2, BPFMap.erase_insert_of_none h, h1, h, BPFMap.insert_same, hroom, and_self,
      implies_true]
  · have h1 := createSession_of_full h hroom
    rw [h1]
    simp [hroom]

/-- Instance of `create_remove_round_trip`: session 2 created, removed and created
again next to session 1, in a map with room for ten. -/
theorem create_remove_round_trip_witness :
    Example.created (Example.fresh 2).seid = none ∧
    (createSession Example.created (Example.fresh 2)).1 = .ok () ∧
    (removeSession (createSession Example.created (Example.fresh 2)).2 2).1 = .ok () ∧
    (removeSession (createSession Example.created (Example.fresh 2)).2 2).2 =
      Example.created ∧
    (createSession (removeSession (createSession Example.created (Example.fresh 2)).2 2).2
      (Example.fresh 2)).1 = .ok () :=
  have hok : (createSession Example.created (Example.fresh 2)).1 = .ok () := by decide
  have h := (create_remove_round_trip Example.created (Example.fresh 2) (by decide)).2 hok
  ⟨by decide, hok, h.2.1, h.2.2.2.1, h.2.2.2.2.1⟩

/-- Counterexample to C13 as stated. In the sessions map with room for one session
session 1 is created; session 2 is then absent, yet `createSession` of session 2
throws ("Cannot create session") because the map is full, and leaves the key
absent. -/
theorem create_on_full_map_counterexample :
    (createSession Example.small_map (Example.fresh 1)).1 = .ok () ∧
    Example.full_map (Example.fresh 2).seid = none ∧
    (createSession Example.full_map (Example.fresh 2)).1 = .error .cannot_create_session ∧
    (createSession Example.full_map (Example.fresh 2)).1 ≠ .ok () ∧
    (createSession Example.full_map (Example.fresh 2)).2 (Example.fresh 2).seid = none := by
  decide

/-- C14. Remove of a session. `removeSession` throws ("Cannot remove session") if and
only if `seid` is absent from the map, and then the map is as it was; it
succeeds if and only if `seid` is present, and then `seid` is absent afterwards
and every other key holds what it held. -/
theorem removeSession_fails_iff_absent (m : BPFMap) (seid : Nat) :
    ((removeSession m seid).1 = .error .cannot_remove_session ↔ m seid = none) ∧
    ((removeSession m seid).1 = .ok () ↔ m seid ≠ none) ∧
    (m seid = none → removeSession m seid = (.error .cannot_remove_session, m)) ∧
    (m seid ≠ none →
      (removeSession m seid).1 = .ok () ∧
      (removeSession m seid).2 seid = none ∧
      ∀ k, k ≠ seid → (removeSession m seid).2 k = m k) := by
  cases h : m seid with
  | none =>
    rw [removeSession_of_none h]
    simp
  | some s =>
    rw [removeSession_of_some h]
    refine ⟨by simp, by simp, by simp, fun _ => ⟨rfl, by simp [BPFMap.erase], ?_⟩⟩
    intro k hk
    simp [BPFMap.erase, hk]

/-- Instance of `removeSession_fails_iff_absent`: removal of the absent session 2
and of the present session 1. -/
theorem removeSession_fails_iff_absent_witness :
    Example.created 2 = none ∧
    removeSession Example.created 2 = (.error .cannot_remove_session, Example.created) ∧
    Example.created 1 ≠ none ∧
    (removeSession Example.created 1).1 = .ok () ∧
    (removeSession Example.created 1).2 1 = none :=
  have h2 := (removeSession_fails_iff_absent Example.created 2).2.2.1 (by decide)
  have h1 := (removeSession_fails_iff_absent Example.created 1).2.2.2 (by decide)
  ⟨by decide, h2, by decide, h1.1, h1.2.1⟩

/-- C15, as amended. Lookup after add, duplicate ids. For every stored session whose
PDR array has its declared size and whose valid prefix has no entry with the
id of the rule `r`, and every sequence of `addPDR` calls within the capacity
that inserts the rules `pre`, none with the id of `r`, then `r`, then any rules
`post`: every call succeeds and `lookupPDR` of the id of `r` returns the value
object of `r`, the earliest inserted entry with that id (the lowest index),
whatever rules with the same id `post` holds. -/
theorem lookup_after_adds_is_first (P : Nat) (m : BPFMap) (session : pfcp_session_t_)
    (seid : Nat) (s : pfcp_session_t_) (hs : m seid = some s) (hlen : s.pdrs.length = P)
    (pre post : List PacketDetectionRules) (r : PacketDetectionRules)
    (hcap : s.pdrs_counter + (pre ++ r :: post).length ≤ P)
    (hold : ∀ x ∈ s.pdrs.take s.pdrs_counter, x.pdr_id.rule_id ≠ r.getPdrId.rule_id)
    (hpre : ∀ q ∈ pre, q.getPdrId.rule_id ≠ r.getPdrId.rule_id) :
    (addPDR_calls P session seid m (pre ++ r :: post)).1 =
      List.replicate (pre ++ r :: post).length (.ok ()) ∧
    ∀ session', (lookupPDR (addPDR_calls P session seid m (pre ++ r :: post)).2 session' seid
      r.getPdrId).1 = some (RulesUtilities.createPDR r.getData) := by
  refine ⟨(addPDR_calls_below_capacity P session seid _ m s hs hlen hcap).1, ?_⟩
  intro session'
  obtain ⟨s', h1, h2, h3, h4⟩ := addPDR_calls_prefix P session seid _ m s hs hlen hcap
  rw [lookupPDR_of_some h1 (by omega), h4]
  have hnone1 : (s.pdrs.take s.pdrs_counter).find?
      (fun pdr => pdr.pdr_id.rule_id == r.getPdrId.rule_id) = none := by
    rw [List.find?_eq_none]; intro x hx; simpa using hold x hx
  have hnone2 : (pre.map PacketDetectionRules.getData).find?
      (fun pdr => pdr.pdr_id.rule_id == r.getPdrId.rule_id) = none := by
    rw [List.find?_eq_none]
    intro x hx
    obtain ⟨q, hq, rfl⟩ := List.mem_map.1 hx
    simpa using hpre q hq
  simp only [List.map_append, List.map_cons, List.find?_append, hnone1, hnone2]
  simp [PacketDetectionRules.getData, PacketDetectionRules.getPdrId]

/-- Instance of `lookup_after_adds_is_first`: the PDRs with ids 1, 1, 2 and payloads
100, 300, 200 added to the fresh session 1; the lookup of id 1 returns the
first of them. -/
theorem lookup_after_adds_is_first_witness :
    Example.created 1 = some (Example.fresh 1) ∧
    (addPDR_calls 3 Example.stack 1 Example.created
      [Example.pdr 1 100, Example.pdr 1 300, Example.pdr 2 200]).1 =
        [.ok (), .ok (), .ok ()] ∧
    (lookupPDR (addPDR_calls 3 Example.stack 1 Example.created
      [Example.pdr 1 100, Example.pdr 1 300, Example.pdr 2 200]).2 Example.stack 1 ⟨1⟩).1 =
        some (Example.pdr 1 100) :=
  have h := lookup_after_adds_is_first 3 Example.created Example.stack 1 (Example.fresh 1)
    (by decide) (by decide) [] [Example.pdr 1 300, Example.pdr 2 200] (Example.pdr 1 100)
    (by decide) (by decide) (by decide)
  ⟨by decide, h.1, h.2 Example.stack⟩

/-- Counterexample to C15 as stated. After the successful adds of the PDRs with ids
1, 1, 2 and payloads 100, 300, 200 to session 1, `lookupPDR` of id 1 returns the
rule with payload 100, not the most recently inserted rule of id 1, which has
payload 300. -/
theorem lookup_most_recent_counterexample :
    (addPDR_calls 3 Example.stack 1 Example.created
      [Example.pdr 1 100, Example.pdr 1 300, Example.pdr 2 200]).1 =
        [.ok (), .ok (), .ok ()] ∧
    (lookupPDR Example.pdr_ids_1_1_2 Example.stack 1 ⟨1⟩).1 = some (Example.pdr 1 100) ∧
    (lookupPDR Example.pdr_ids_1_1_2 Example.stack 1 ⟨1⟩).1 ≠ some (Example.pdr 1 300) := by
  decide

/-- C16. Lookup never mutates the store. For every sessions map, local record,
`seid` and id, the map after `lookupPDR` and after `lookupFAR` is the map before
the call, whether a rule is found or the result is the empty pointer, and
whether the session is present or not. -/
theorem lookup_leaves_map (m : BPFMap) (session : pfcp_session_t_) (seid : Nat)
    (pdrId : pdr_id_t_) (farId : far_id_t_) :
    (lookupPDR m session seid pdrId).2 = m ∧ (lookupFAR m session seid farId).2 = m := by
  constructor
  · simp only [lookupPDR]
    split
    · rfl
    · split <;> rfl
  · simp only [lookupFAR]
    split
    · rfl
    · split <;> rfl

/-- C17. Two callers of `addFAR`, evaluated. On the fresh session 1 of capacity 3
the adds of FAR 7 and of FAR 8 each succeed on their own. In the interleaving
where both callers read before either writes and `A` writes first, both calls
return normally and the map ends with `fars_counter = 1` and the single entry
FAR 8: the counter went up by one and FAR 7 is lost. Over the six
interleavings, the two in which one call runs after the other end with the
counter 2 and both entries; the four others end with the counter 1 and the
entry of the last writer. -/
theorem concurrent_addFAR_trace :
    Example.created 1 = some (Example.fresh 1) ∧
    (addFAR 3 Example.created Example.stack 1 (Example.far 7 70)).1 = .ok () ∧
    (addFAR 3 Example.created Example.stack 1 (Example.far 8 80)).1 = .ok () ∧
    [Step.readA, Step.readB, Step.writeA, Step.writeB] ∈ interleavings ∧
    (run 3 Example.stack Example.stack 1 (Example.far 7 70) (Example.far 8 80)
      Example.created [.readA, .readB, .writeA, .writeB]).returnedA = some (.ok ()) ∧
    (run 3 Example.stack Example.stack 1 (Example.far 7 70) (Example.far 8 80)
      Example.created [.readA, .readB, .writeA, .writeB]).returnedB = some (.ok ()) ∧
    (run 3 Example.stack Example.stack 1 (Example.far 7 70) (Example.far 8 80)
      Example.created [.readA, .readB, .writeA, .writeB]).map 1 =
        some (Example.one_far 8 80) ∧
    interleavings.map (fun schedule =>
      ((run 3 Example.stack Example.stack 1 (Example.far 7 70) (Example.far 8 80)
        Example.created schedule).map 1).map
          (fun s => (s.fars_counter, (s.fars.take s.fars_counter).map (·.far_id.far_id)))) =
      [some (2, [7, 8]), some (2, [8, 7]), some (1, [8]), some (1, [7]), some (1, [8]),
        some (1, [7])] := by
  decide

/-- C18. Counter-bound invariant. When `seid` is stored and every record of the map
has `pdrs_counter ≤ P` and `fars_counter ≤ F`, then after each of `addFAR`,
`updateFAR`, `removeFAR`, `lookupFAR`, `addPDR`, `updatePDR`, `removePDR` and
`lookupPDR` on `seid`, thrown or not, every record of the map still has both
bounds. An add that succeeds found the counter, which is the index it writes,
below the capacity, and a remove that succeeds found the counter above 0. -/
theorem counters_stay_bounded (P F : Nat) (m : BPFMap) (session : pfcp_session_t_)
    (seid : Nat) (s : pfcp_session_t_) (hs : m seid = some s)
    (hinv : m.counters_bounded P F) :
    (∀ pFar : ForwardingActionRules,
      ((addFAR F m session seid pFar).2).counters_bounded P F ∧
      ((addFAR F m session seid pFar).1 = .ok () → s.fars_counter < F)) ∧
    (∀ pFar : ForwardingActionRules,
      ((updateFAR m session seid pFar).2).counters_bounded P F) ∧
    (∀ pFar : ForwardingActionRules,
      ((removeFAR m session seid pFar).2).counters_bounded P F ∧
      ((removeFAR m session seid pFar).1 = .ok () → 0 < s.fars_counter)) ∧
    (∀ farId : far_id_t_, ((lookupFAR m session seid farId).2).counters_bounded P F) ∧
    (∀ pPdr : PacketDetectionRules,
      ((addPDR P m session seid pPdr).2).counters_bounded P F ∧
      ((addPDR P m session seid pPdr).1 = .ok () → s.pdrs_counter < P)) ∧
    (∀ pPdr : PacketDetectionRules,
      ((updatePDR m session seid pPdr).2).counters_bounded P F) ∧
    (∀ pPdr : PacketDetectionRules,
      ((removePDR m session seid pPdr).2).counters_bounded P F ∧
      ((removePDR m session seid pPdr).1 = .ok () → 0 < s.pdrs_counter)) ∧
    (∀ pdrId : pdr_id_t_, ((lookupPDR m session seid pdrId).2).counters_bounded P F) := by
  have hb := hinv seid s hs
  refine ⟨?_, ?_, ?_, ?_, ?_, ?_, ?_, ?_⟩
  · intro pFar
    rcases addFAR_shape F hs session pFar with ⟨hne, he⟩ | ⟨_, hlt, fars', he⟩
    · exact ⟨by rw [he]; exact hinv, fun hok => absurd hok hne⟩
    · exact ⟨by rw [he]; exact BPFMap.counters_bounded_put hinv _ _ hb.1 (by simp; omega),
        fun _ => hlt⟩
  · intro pFar
    rcases updateFAR_shape hs session pFar with ⟨_, he⟩ | ⟨_, fars', he⟩
    · rw [he]; exact hinv
    · rw [he]; exact BPFMap.counters_bounded_put hinv _ _ hb.1 hb.2
  · intro pFar
    rcases removeFAR_shape hs session pFar with ⟨hne, he⟩ | ⟨_, hpos, fars', he⟩
    · exact ⟨by rw [he]; exact hinv, fun hok => absurd hok hne⟩
    · exact ⟨by
          rw [he]
          exact BPFMap.counters_bounded_update_EXIST hinv _ _ hb.1 (by simp; omega),
        fun _ => hpos⟩
  · intro farId
    have : (lookupFAR m session seid farId).2 = m := by
      simp only [lookupFAR]
      split
      · rfl
      · split <;> rfl
    rw [this]; exact hinv
  · intro pPdr
    rcases addPDR_shape P hs session pPdr with ⟨hne, he⟩ | ⟨_, hlt, pdrs', he⟩
    · exact ⟨by rw [he]; exact hinv, fun hok => absurd hok hne⟩
    · exact ⟨by rw [he]; exact BPFMap.counters_bounded_put hinv _ _ (by simp; omega) hb.2,
        fun _ => hlt⟩
  · intro pPdr
    rcases updatePDR_shape hs session pPdr with ⟨_, he⟩ | ⟨_, pdrs', he⟩
    · rw [he]; exact hinv
    · rw [he]; exact BPFMap.counters_bounded_put hinv _ _ hb.1 hb.2
  · intro pPdr
    rcases removePDR_shape hs session pPdr with ⟨hne, he⟩ | ⟨_, hpos, pdrs', he⟩
    · exact ⟨by rw [he]; exact hinv, fun hok => absurd hok hne⟩
    · exact ⟨by
          rw [he]
          exact BPFMap.counters_bounded_update_EXIST hinv _ _ (by simp; omega) hb.2,
        fun _ => hpos⟩
  · intro pdrId
    have : (lookupPDR m session seid pdrId).2 = m := by
      simp only [lookupPDR]
      split
      · rfl
      · split <;> rfl
    rw [this]; exact hinv

/-- Instance of `counters_stay_bounded`: operations on the fresh session 1. -/
theorem counters_stay_bounded_witness :
    Example.created 1 = some (Example.fresh 1) ∧
    Example.created.counters_bounded 3 3 ∧
    ((addFAR 3 Example.created Example.stack 1 (Example.far 7 70)).2).counters_bounded 3 3 ∧
    ((addPDR 3 Example.created Example.stack 1 (Example.pdr 10 100)).2).counters_bounded 3 3 ∧
    ((removePDR Example.created Example.stack 1 (Example.pdr 10 0)).2).counters_bounded 3 3 :=
  have h := counters_stay_bounded 3 3 Example.created Example.stack 1 (Example.fresh 1)
    (by decide) created_counters_bounded
  ⟨by decide, created_counters_bounded, (h.1 (Example.far 7 70)).1,
    (h.2.2.2.2.1 (Example.pdr 10 100)).1, (h.2.2.2.2.2.2.1 (Example.pdr 10 0)).1⟩

/-- Key/seid agreement on stored sessions. `createSession`, when it succeeds,
stores the record under the key equal to its `seid` field. When every key of
the map holds a record whose `seid` field is that key, the same is true after
`createSession` and after each of `addFAR`, `updateFAR`, `removeFAR`, `lookupFAR`,
`addPDR`, `updatePDR`, `removePDR` and `lookupPDR`, for every `seid` and local
record. And for a session that is stored, the record read has the `seid`
argument in its `seid` field, so the write-back of `removeFAR` and `removePDR`,
keyed by that field, goes to the key of the call: no other key changes, and
after a success the key of the call holds the record with the counter one
lower. -/
theorem keys_stay_agreed (P F : Nat) (m : BPFMap) (hinv : m.keys_agree) :
    (∀ s, (createSession m s).1 = .ok () → (createSession m s).2 s.seid = some s) ∧
    (∀ s, ((createSession m s).2).keys_agree) ∧
    (∀ session seid (pFar : ForwardingActionRules),
      ((addFAR F m session seid pFar).2).keys_agree ∧
      ((updateFAR m session seid pFar).2).keys_agree ∧
      ((removeFAR m session seid pFar).2).keys_agree) ∧
    (∀ session seid (farId : far_id_t_), ((lookupFAR m session seid farId).2).keys_agree) ∧
    (∀ session seid (pPdr : PacketDetectionRules),
      ((addPDR P m session seid pPdr).2).keys_agree ∧
      ((updatePDR m session seid pPdr).2).keys_agree ∧
      ((removePDR m session seid pPdr).2).keys_agree) ∧
    (∀ session seid (pdrId : pdr_id_t_), ((lookupPDR m session seid pdrId).2).keys_agree) ∧
    (∀ session seid s, m seid = some s →
      (m.lookup seid session).2.seid = seid ∧
      (∀ pFar : ForwardingActionRules,
        m.same_elsewhere (removeFAR m session seid pFar).2 seid ∧
        ((removeFAR m session seid pFar).1 = .ok () →
          ∃ s', (removeFAR m session seid pFar).2 seid = some s' ∧
            s'.seid = seid ∧ s'.fars_counter + 1 = s.fars_counter)) ∧
      (∀ pPdr : PacketDetectionRules,
        m.same_elsewhere (removePDR m session seid pPdr).2 seid ∧
        ((removePDR m session seid pPdr).1 = .ok () →
          ∃ s', (removePDR m session seid pPdr).2 seid = some s' ∧
            s'.seid = seid ∧ s'.pdrs_counter + 1 = s.pdrs_counter))) := by
  refine ⟨?_, ?_, ?_, ?_, ?_, ?_, ?_⟩
  · intro s hok
    cases h : m s.seid with
    | none =>
      by_cases hroom : m.size < m.max_entries
      · rw [createSession_of_none h hroom]; exact BPFMap.insert_same m s.seid s
      · rw [createSession_of_full h hroom] at hok; exact absurd hok (by simp)
    | some v => rw [createSession_of_some h] at hok; exact absurd hok (by simp)
  · intro s
    simp only [createSession]
    split <;> exact BPFMap.keys_agree_update hinv _ _ _ rfl
  · intro session seid pFar
    exact ⟨addFAR_keys_agree F hinv session seid pFar,
      updateFAR_keys_agree hinv session seid pFar, removeFAR_keys_agree hinv session seid pFar⟩
  · intro session seid farId
    have : (lookupFAR m session seid farId).2 = m := by
      simp only [lookupFAR]
      split
      · rfl
      · split <;> rfl
    rw [this]; exact hinv
  · intro session seid pPdr
    exact ⟨addPDR_keys_agree P hinv session seid pPdr,
      updatePDR_keys_agree hinv session seid pPdr, removePDR_keys_agree hinv session seid pPdr⟩
  · intro session seid pdrId
    have : (lookupPDR m session seid pdrId).2 = m := by
      simp only [lookupPDR]
      split
      · rfl
      · split <;> rfl
    rw [this]; exact hinv
  · intro session seid s hs
    have hkey : s.seid = seid := hinv seid s hs
    refine ⟨by rw [BPFMap.lookup_of_some hs]; exact hkey, ?_, ?_⟩
    · intro pFar
      rcases removeFAR_shape hs session pFar with ⟨hne, he⟩ | ⟨_, hpos, fars', he⟩
      · exact ⟨by rw [he]; exact fun _ _ => rfl, fun hok => absurd hok hne⟩
      · rw [hkey, BPFMap.update_EXIST_of_some hs] at he
        rw [he]
        exact ⟨BPFMap.same_elsewhere_put m seid _,
          fun _ => ⟨_, BPFMap.put_same m seid _, rfl, by simp; omega⟩⟩
    · intro pPdr
      rcases removePDR_shape hs session pPdr with ⟨hne, he⟩ | ⟨_, hpos, pdrs', he⟩
      · exact ⟨by rw [he]; exact fun _ _ => rfl, fun hok => absurd hok hne⟩
      · rw [hkey, BPFMap.update_EXIST_of_some hs] at he
        rw [he]
        exact ⟨BPFMap.same_elsewhere_put m seid _,
          fun _ => ⟨_, BPFMap.put_same m seid _, rfl, by simp; omega⟩⟩

/-- Instance of `keys_stay_agreed`: FAR 8 removed from session 1 holding the FARs 7
and 8. -/
theorem keys_stay_agreed_witness :
    Example.after_add_fars.keys_agree ∧
    Example.after_add_fars 1 = some Example.two_fars ∧
    (Example.after_add_fars.lookup 1 Example.stack).2.seid = 1 ∧
    ((removeFAR Example.after_add_fars Example.stack 1 (Example.far 8 0)).2).keys_agree ∧
    (∃ s', (removeFAR Example.after_add_fars Example.stack 1 (Example.far 8 0)).2 1 = some s' ∧
      s'.seid = 1 ∧ s'.fars_counter + 1 = Example.two_fars.fars_counter) :=
  have h := keys_stay_agreed 3 3 Example.after_add_fars after_add_fars_keys_agree
  have hr := h.2.2.2.2.2.2 Example.stack 1 Example.two_fars (by decide)
  ⟨after_add_fars_keys_agree, by decide, hr.1,
    (h.2.2.1 Example.stack 1 (Example.far 8 0)).2.2,
    (hr.2.1 (Example.far 8 0)).2 (by decide)⟩

/-- C19. Remove on an absent session, evaluated. The sessions map holds session 1
with the FARs 7 and 8 and its keys agree with the `seid` fields; `seid` 2 is
absent. `removeFAR` of FAR 7 on `seid` 2, with the local `session` holding the
record of session 1, returns normally, leaves `seid` 2 absent and writes under
key 1, the `seid` field of the local: session 1 then has `fars_counter = 1` and
the single entry FAR 8. The same for `removePDR` of PDR 10 on `seid` 2 in the
map that holds session 1 with the PDRs 10 and 20. The write-back does not go to
the key of the call. -/
theorem remove_on_absent_session_trace :
    Example.after_add_fars.keys_agree ∧
    Example.after_add_fars 2 = none ∧
    Example.after_add_fars 1 = some Example.two_fars ∧
    (removeFAR Example.after_add_fars Example.two_fars 2 (Example.far 7 0)).1 = .ok () ∧
    (removeFAR Example.after_add_fars Example.two_fars 2 (Example.far 7 0)).2 2 = none ∧
    ((removeFAR Example.after_add_fars Example.two_fars 2 (Example.far 7 0)).2 1).map
      (fun s => (s.seid, s.fars_counter, s.fars.take s.fars_counter)) =
        some (1, 1, [⟨⟨8⟩, 80⟩]) ∧
    Example.after_add_20 2 = none ∧
    Example.after_add_20 1 = some Example.two_pdrs ∧
    (removePDR Example.after_add_20 Example.two_pdrs 2 (Example.pdr 10 0)).1 = .ok () ∧
    (removePDR Example.after_add_20 Example.two_pdrs 2 (Example.pdr 10 0)).2 2 = none ∧
    ((removePDR Example.after_add_20 Example.two_pdrs 2 (Example.pdr 10 0)).2 1).map
      (fun s => (s.seid, s.pdrs_counter, s.pdrs.take s.pdrs_counter)) =
        some (1, 1, [⟨⟨20⟩, 200⟩]) := by
  refine ⟨after_add_fars_keys_agree, ?_, ?_, ?_, ?_, ?_, ?_, ?_, ?_, ?_, ?_⟩ <;> decide

/-- C20. Frame of the rule operations. For every sessions map in which `seid` holds
a record `s` with `s.seid = seid`: after `addPDR`, `updatePDR` and `removePDR` on
`seid`, thrown or not, `seid` holds a record with the `fars` and the
`fars_counter` of `s`; after `addFAR`, `updateFAR` and `removeFAR` it holds a
record with the `pdrs` and the `pdrs_counter` of `s`; and in all six cases every
other key holds what it held and the map has the same keys. -/
theorem rule_operations_frame (P F : Nat) (m : BPFMap) (session : pfcp_session_t_)
    (seid : Nat) (s : pfcp_session_t_) (hs : m seid = some s) (hseid : s.seid = seid) :
    (∀ pPdr : PacketDetectionRules,
      ((∃ s', (addPDR P m session seid pPdr).2 seid = some s' ∧
          s'.fars = s.fars ∧ s'.fars_counter = s.fars_counter) ∧
        m.same_elsewhere (addPDR P m session seid pPdr).2 seid ∧
        m.same_keys (addPDR P m session seid pPdr).2) ∧
      ((∃ s', (updatePDR m session seid pPdr).2 seid = some s' ∧
          s'.fars = s.fars ∧ s'.fars_counter = s.fars_counter) ∧
        m.same_elsewhere (updatePDR m session seid pPdr).2 seid ∧
        m.same_keys (updatePDR m session seid pPdr).2) ∧
      ((∃ s', (removePDR m session seid pPdr).2 seid = some s' ∧
          s'.fars = s.fars ∧ s'.fars_counter = s.fars_counter) ∧
        m.same_elsewhere (removePDR m session seid pPdr).2 seid ∧
        m.same_keys (removePDR m session seid pPdr).2)) ∧
    (∀ pFar : ForwardingActionRules,
      ((∃ s', (addFAR F m session seid pFar).2 seid = some s' ∧
          s'.pdrs = s.pdrs ∧ s'.pdrs_counter = s.pdrs_counter) ∧
        m.same_elsewhere (addFAR F m session seid pFar).2 seid ∧
        m.same_keys (addFAR F m session seid pFar).2) ∧
      ((∃ s', (updateFAR m session seid pFar).2 seid = some s' ∧
          s'.pdrs = s.pdrs ∧ s'.pdrs_counter = s.pdrs_counter) ∧
        m.same_elsewhere (updateFAR m session seid pFar).2 seid ∧
        m.same_keys (updateFAR m session seid pFar).2) ∧
      ((∃ s', (removeFAR m session seid pFar).2 seid = some s' ∧
          s'.pdrs = s.pdrs ∧ s'.pdrs_counter = s.pdrs_counter) ∧
        m.same_elsewhere (removeFAR m session seid pFar).2 seid ∧
        m.same_keys (removeFAR m session seid pFar).2)) := by
  have hputP : ∀ s' : pfcp_session_t_, s'.pdrs = s.pdrs → s'.pdrs_counter = s.pdrs_counter →
      (∃ s'', (m.put seid s') seid = some s'' ∧
        s''.pdrs = s.pdrs ∧ s''.pdrs_counter = s.pdrs_counter) ∧
      m.same_elsewhere (m.put seid s') seid ∧ m.same_keys (m.put seid s') :=
    fun s' h1 h2 => ⟨⟨s', BPFMap.put_same m seid s', h1, h2⟩,
      BPFMap.same_elsewhere_put m seid s', BPFMap.same_keys_put hs s'⟩
  have hsameP : (∃ s', m seid = some s' ∧ s'.pdrs = s.pdrs ∧ s'.pdrs_counter = s.pdrs_counter) ∧
      m.same_elsewhere m seid ∧ m.same_keys m :=
    ⟨⟨s, hs, rfl, rfl⟩, fun _ _ => rfl, fun _ => rfl⟩
  have hputF : ∀ s' : pfcp_session_t_, s'.fars = s.fars → s'.fars_counter = s.fars_counter →
      (∃ s'', (m.put seid s') seid = some s'' ∧
        s''.fars = s.fars ∧ s''.fars_counter = s.fars_counter) ∧
      m.same_elsewhere (m.put seid s') seid ∧ m.same_keys (m.put seid s') :=
    fun s' h1 h2 => ⟨⟨s', BPFMap.put_same m seid s', h1, h2⟩,
      BPFMap.same_elsewhere_put m seid s', BPFMap.same_keys_put hs s'⟩
  have hsameF : (∃ s', m seid = some s' ∧ s'.fars = s.fars ∧ s'.fars_counter = s.fars_counter) ∧
      m.same_elsewhere m seid ∧ m.same_keys m :=
    ⟨⟨s, hs, rfl, rfl⟩, fun _ _ => rfl, fun _ => rfl⟩
  constructor
  · intro pPdr
    refine ⟨?_, ?_, ?_⟩
    · rcases addPDR_shape P hs session pPdr with ⟨_, he⟩ | ⟨_, _, pdrs', he⟩
      · rw [he]; exact hsameF
      · rw [he]; exact hputF _ rfl rfl
    · rcases updatePDR_shape hs session pPdr with ⟨_, he⟩ | ⟨_, pdrs', he⟩
      · rw [he]; exact hsameF
      · rw [he]; exact hputF _ rfl rfl
    · rcases removePDR_shape hs session pPdr with ⟨_, he⟩ | ⟨_, _, pdrs', he⟩
      · rw [he]; exact hsameF
      · rw [hseid, BPFMap.update_EXIST_of_some hs] at he
        rw [he]; exact hputF _ rfl rfl
  · intro pFar
    refine ⟨?_, ?_, ?_⟩
    · rcases addFAR_shape F hs session pFar with ⟨_, he⟩ | ⟨_, _, fars', he⟩
      · rw [he]; exact hsameP
      · rw [he]; exact hputP _ rfl rfl
    · rcases updateFAR_shape hs session pFar with ⟨_, he⟩ | ⟨_, fars', he⟩
      · rw [he]; exact hsameP
      · rw [he]; exact hputP _ rfl rfl
    · rcases removeFAR_shape hs session pFar with ⟨_, he⟩ | ⟨_, _, fars', he⟩
      · rw [he]; exact hsameP
      · rw [hseid, BPFMap.update_EXIST_of_some hs] at he
        rw [he]; exact hputP _ rfl rfl

/-- Instance of `rule_operations_frame`: FAR 8 removed from, and PDR 10 added to,
session 1 holding the FARs 7 and 8. -/
theorem rule_operations_frame_witness :
    Example.after_add_fars 1 = some Example.two_fars ∧
    Example.two_fars.seid = 1 ∧
    (∃ s', (removeFAR Example.after_add_fars Example.stack 1 (Example.far 8 0)).2 1 = some s' ∧
      s'.pdrs = Example.two_fars.pdrs ∧ s'.pdrs_counter = Example.two_fars.pdrs_counter) ∧
    Example.after_add_fars.same_keys
      (removeFAR Example.after_add_fars Example.stack 1 (Example.far 8 0)).2 ∧
    (∃ s', (addPDR 3 Example.after_add_fars Example.stack 1 (Example.pdr 10 100)).2 1 =
        some s' ∧
      s'.fars = Example.two_fars.fars ∧ s'.fars_counter = Example.two_fars.fars_counter) ∧
    Example.after_add_fars.same_elsewhere
      (addPDR 3 Example.after_add_fars Example.stack 1 (Example.pdr 10 100)).2 1 :=
  have h := rule_operations_frame 3 3 Example.after_add_fars Example.stack 1 Example.two_fars
    (by decide) (by decide)
  ⟨by decide, by decide, (h.2 (Example.far 8 0)).2.2.1, (h.2 (Example.far 8 0)).2.2.2.2,
    (h.1 (Example.pdr 10 100)).1.1, (h.1 (Example.pdr 10 100)).1.2.1⟩

end SessionManager

end UPF
